import Mathlib

set_option maxRecDepth 10000
set_option maxHeartbeats 1000000

/-!
Verification development for the Taipei eBus scraping pipeline
(route-list / stop-list extraction, SQLite persistence, driver loop).

The Python sources are shallowly embedded:
* the `re` patterns used by `parse_route_list` / `parse_route_info` are
  modelled by a small backtracking matcher (`matchItems` / `findAux`) over
  `List Char`, faithful to Python leftmost / lazy / greedy semantics for
  the constructs the patterns use (literals, lazy `.*?` under DOTALL,
  greedy character classes `\d+`, `[^>]+`, `[\d.]+`, `\s*`);
* `pandas` dataframes are lists of rows whose cells carry their runtime
  type (`Cell`); `astype` is explicit conversion that can fail;
* the SQLite tables are lists of rows; `session.merge` is upsert by
  primary key; the driver loop is a fold that also emits the trace of
  status writes.
-/

/-- Python `\s` (ASCII part, which is all the scraped pages use). -/
def isPySpace (c : Char) : Bool :=
  c = ' ' || c = '\t' || c = '\n' || c = '\r' || c = '\x0b' || c = '\x0c'

/-- Character class `[\d\.]` of the latitude/longitude captures. -/
def isDigitDot (c : Char) : Bool := c.isDigit || c = '.'

/-- Character class `[^>]` used inside `<input ...>` tags. -/
def notGt (c : Char) : Bool := c ≠ '>'

/-- One item of a compiled pattern.  `lazyAny` is `.*?` under `re.DOTALL`
(`cap` marks a capturing group, `acc` the text consumed so far, in reverse);
`cls` is a greedy character class, `needOne` distinguishing `+` from `*`. -/
inductive RItem where
  | lit (cs : List Char)
  | lazyAny (cap : Bool) (acc : List Char)
  | cls (p : Char → Bool) (cap : Bool) (needOne : Bool) (acc : List Char)

/-- Deliver a finished group's text to the capture list. -/
def emit (cap : Bool) (acc : List Char) (caps : List (List Char)) :
    List (List Char) :=
  if cap then acc.reverse :: caps else caps

/-- Backtracking matcher, anchored at the start of `s`: Python `re.match`
restricted to the constructs of the two scraper patterns.  Returns the
captures (in group order) and the text remaining after the match.  The
recursion is on explicit fuel so the kernel can evaluate it; every call
shrinks `s.length + pats.length`, so any fuel above that bound yields
the fuel-free semantics (`matchItemsF_congr` below). -/
def matchItemsF : Nat → List RItem → List Char →
    Option (List (List Char) × List Char)
  | 0, _, _ => none
  | _ + 1, [], s => some ([], s)
  | fuel + 1, .lit [] :: rest, s => matchItemsF fuel rest s
  | fuel + 1, .lit (c :: cs) :: rest, s =>
    match s with
    | [] => none
    | d :: s' =>
      if c = d then matchItemsF fuel (.lit cs :: rest) s' else none
  | fuel + 1, .lazyAny cap acc :: rest, s =>
    match matchItemsF fuel rest s with
    | some (caps, r) => some (emit cap acc caps, r)
    | none =>
      match s with
      | [] => none
      | c :: s' => matchItemsF fuel (.lazyAny cap (c :: acc) :: rest) s'
  | fuel + 1, .cls p cap true acc :: rest, s =>
    match s with
    | [] => none
    | c :: s' =>
      if p c then matchItemsF fuel (.cls p cap false (c :: acc) :: rest) s'
      else none
  | fuel + 1, .cls p cap false acc :: rest, s =>
    match s with
    | [] => (matchItemsF fuel rest []).map fun pr => (emit cap acc pr.1, pr.2)
    | c :: s' =>
      if p c then
        match matchItemsF fuel (.cls p cap false (c :: acc) :: rest) s' with
        | some res => some res
        | none =>
          (matchItemsF fuel rest (c :: s')).map
            fun pr => (emit cap acc pr.1, pr.2)
      else
        (matchItemsF fuel rest (c :: s')).map
          fun pr => (emit cap acc pr.1, pr.2)

/-- The matcher with adequate fuel. -/
def matchItems (pats : List RItem) (s : List Char) :
    Option (List (List Char) × List Char) :=
  matchItemsF (s.length + pats.length + 1) pats s

/-- Python `re.findall`: scan left to right, restart after each match
(advancing one character past a zero-width match, as `finditer` does).
Fuel-driven like `matchItemsF`; each restart strictly shrinks `s`. -/
def findAuxF : Nat → List RItem → List Char → List (List (List Char))
  | 0, _, _ => []
  | fuel + 1, pat, s =>
    match matchItems pat s with
    | some (caps, r) =>
      if r.length < s.length then caps :: findAuxF fuel pat r
      else
        caps ::
          (match s with
           | [] => []
           | _ :: s' => findAuxF fuel pat s')
    | none =>
      match s with
      | [] => []
      | _ :: s' => findAuxF fuel pat s'

/-- `re.findall` with adequate fuel. -/
def findAux (pat : List RItem) (s : List Char) : List (List (List Char)) :=
  findAuxF (s.length + 1) pat s

/-- The route-list pattern of `taipei_route_list.parse_route_list`:
`<li><a href="javascript:go\('(.*?)'\)">(.*?)</a></li>`. -/
def routePat : List RItem :=
  [.lit "<li><a href=\"javascript:go('".toList,
   .lazyAny true [],
   .lit "')\">".toList,
   .lazyAny true [],
   .lit "</a></li>".toList]

/-- The stop-list pattern of `taipei_route_info.parse_route_info`
(six capturing groups: arrival text, stop number, stop name, stop id,
latitude, longitude). -/
def stopPat : List RItem :=
  [.lit "<li>".toList,
   .lazyAny false [],
   .lit "<span class=\"auto-list-stationlist-position".toList,
   .lazyAny false [],
   .lit "\">".toList,
   .lazyAny true [],
   .lit "</span>".toList,
   .cls isPySpace false false [],
   .lit "<span class=\"auto-list-stationlist-number\">".toList,
   .cls isPySpace false false [],
   .cls Char.isDigit true true [],
   .lit "</span>".toList,
   .cls isPySpace false false [],
   .lit "<span class=\"auto-list-stationlist-place\">".toList,
   .lazyAny true [],
   .lit "</span>".toList,
   .lazyAny false [],
   .lit "<input".toList,
   .cls notGt false true [],
   .lit "name=\"item.UniStopId\"".toList,
   .cls notGt false true [],
   .lit "value=\"".toList,
   .cls Char.isDigit true true [],
   .lit "\"".toList,
   .cls notGt false false [],
   .lit ">".toList,
   .lazyAny false [],
   .lit "<input".toList,
   .cls notGt false true [],
   .lit "name=\"item.Latitude\"".toList,
   .cls notGt false true [],
   .lit "value=\"".toList,
   .cls isDigitDot true true [],
   .lit "\"".toList,
   .cls notGt false false [],
   .lit ">".toList,
   .lazyAny false [],
   .lit "<input".toList,
   .cls notGt false true [],
   .lit "name=\"item.Longitude\"".toList,
   .cls notGt false true [],
   .lit "value=\"".toList,
   .cls isDigitDot true true [],
   .lit "\"".toList,
   .cls notGt false false [],
   .lit ">".toList]


def goodBlock : List Char :=
  ("<li><span class=\"auto-list-stationlist-position\">A</span> " ++
   "<span class=\"auto-list-stationlist-number\"> 1</span> " ++
   "<span class=\"auto-list-stationlist-place\">N</span> " ++
   "<input name=\"item.UniStopId\" value=\"11\"> " ++
   "<input name=\"item.Latitude\" value=\"25.0\"> " ++
   "<input name=\"item.Longitude\" value=\"121.5\">").toList

def badBlock : List Char :=
  ("<li><span class=\"auto-list-stationlist-position\">B</span> " ++
   "<span class=\"auto-list-stationlist-number\"> 2</span> " ++
   "<span class=\"auto-list-stationlist-place\">M</span> " ++
   "<input name=\"item.UniStopId\" value=\"22\"> " ++
   "<input name=\"item.Latitude\" value=\"abc\"> " ++
   "<input name=\"item.Longitude\" value=\"121.0\">").toList

/-- A stop block whose latitude text `25..04` matches `[\d.]+` but is
not a valid Python float. -/
def dotBlock : List Char :=
  ("<li><span class=\"auto-list-stationlist-position\">C</span> " ++
   "<span class=\"auto-list-stationlist-number\"> 3</span> " ++
   "<span class=\"auto-list-stationlist-place\">P</span> " ++
   "<input name=\"item.UniStopId\" value=\"33\"> " ++
   "<input name=\"item.Latitude\" value=\"25..04\"> " ++
   "<input name=\"item.Longitude\" value=\"121.0\">").toList



/-- Python `str.strip()` (whitespace from both ends). -/
def pyStrip (cs : List Char) : List Char :=
  ((cs.dropWhile isPySpace).reverse.dropWhile isPySpace).reverse

/-- Value of a digit string (the digits of `cs` read in base 10). -/
def digitsToNat (cs : List Char) : Nat :=
  cs.foldl (fun a c => a * 10 + (c.toNat - 48)) 0

/-- Python `float(text)` on an unsigned decimal numeral: defined exactly on
texts made of digits and at most one dot with at least one digit
(`"25.04"`, `"121."`, `".5"`), failing on `"25..04"`, `"."`, `"abc"`. -/
def pyFloatCore (cs : List Char) : Option ℚ :=
  if cs.all isDigitDot && cs.count '.' ≤ 1 && cs.any Char.isDigit then
    some ((digitsToNat (cs.takeWhile fun c => c ≠ '.') : ℚ) +
      (digitsToNat ((cs.dropWhile fun c => c ≠ '.').drop 1) : ℚ) /
        ((10 : ℚ) ^ ((cs.dropWhile fun c => c ≠ '.').drop 1).length))
  else none

/-- Python `float(text)` including an optional leading sign. -/
def pyFloat (cs : List Char) : Option ℚ :=
  match cs with
  | '-' :: rest => (pyFloatCore rest).map fun q => -q
  | '+' :: rest => pyFloatCore rest
  | _ => pyFloatCore cs

/-- Python `int(text)` on decimal numerals with optional sign. -/
def pyInt (cs : List Char) : Option ℤ :=
  match cs with
  | '-' :: rest =>
    if rest ≠ [] && rest.all Char.isDigit then some (-(digitsToNat rest : ℤ))
    else none
  | _ =>
    if cs ≠ [] && cs.all Char.isDigit then some (digitsToNat cs : ℤ) else none

/-- A pandas dataframe cell together with its runtime type
(`object`/string, `int`, or `float` — rationals stand in for the
decimal-numeral floats the site serves). -/
inductive Cell where
  | s (v : List Char)
  | i (v : ℤ)
  | f (v : ℚ)
deriving DecidableEq, Repr

/-- `astype(float)` on one cell. -/
def cellToFloat : Cell → Option Cell
  | .s v => (pyFloat v).map .f
  | .i v => some (.f (v : ℚ))
  | .f v => some (.f v)

/-- `astype(int)` on one cell (only the string case is exercised). -/
def cellToInt : Cell → Option Cell
  | .s v => (pyInt v).map .i
  | .i v => some (.i v)
  | .f v => some (.i ⌊v⌋)

/-- All-or-nothing column conversion, as pandas `astype` on a column. -/
def mapMOpt (f : α → Option β) : List α → Option (List β)
  | [] => some []
  | x :: xs =>
    match f x, mapMOpt f xs with
    | some y, some ys => some (y :: ys)
    | _, _ => none

/-- One row of the stop dataframe built by `parse_route_info`
(six captured columns plus the `direction` / `route_id` columns the
method appends). -/
structure StopRow where
  arrival_info : Cell
  stop_number : Cell
  stop_name : Cell
  stop_id : Cell
  latitude : Cell
  longitude : Cell
  direction : List Char
  route_id : List Char
deriving DecidableEq, Repr

/-- Build the raw (all-string) dataframe row from one findall tuple. -/
def rawStopRow (rid dir : List Char) (caps : List (List Char)) : StopRow :=
  match caps with
  | [a, n, nm, sid, la, lo] => ⟨.s a, .s n, .s nm, .s sid, .s la, .s lo, dir, rid⟩
  | _ => ⟨.s [], .s [], .s [], .s [], .s [], .s [], dir, rid⟩

def noDataMsg (rid : List Char) : List Char :=
  "No data found for route ID ".toList ++ rid

def convErrMsg : List Char := "could not convert string".toList

/-- `taipei_route_info.parse_route_info` of `00003.py`: raises on zero
matches; performs no numeric conversion (all cells stay strings). -/
def parseRouteInfo00003 (rid dir content : List Char) :
    Except (List Char) (List StopRow) :=
  let ms := findAux stopPat content
  if ms = [] then .error (noDataMsg rid)
  else .ok (ms.map (rawStopRow rid dir))

/-- `taipei_route_info.parse_route_info` of `realtime_scraper.py`: raises
on zero matches, then `astype(float)` on latitude and longitude and
`astype(int)` on stop_number (and nothing on stop_id). -/
def parseRouteInfoRealtime (rid dir content : List Char) :
    Except (List Char) (List StopRow) :=
  let ms := findAux stopPat content
  if ms = [] then .error (noDataMsg rid)
  else
    let raw := ms.map (rawStopRow rid dir)
    match mapMOpt (fun r => (cellToFloat r.latitude).map
        fun c => { r with latitude := c }) raw with
    | none => .error convErrMsg
    | some rows1 =>
      match mapMOpt (fun r => (cellToFloat r.longitude).map
          fun c => { r with longitude := c }) rows1 with
      | none => .error convErrMsg
      | some rows2 =>
        match mapMOpt (fun r => (cellToInt r.stop_number).map
            fun c => { r with stop_number := c }) rows2 with
        | none => .error convErrMsg
        | some rows3 => .ok rows3

/-- `taipei_route_info.parse_route_info` of `interactive_bus_info.py`: on
zero matches it prints a message and returns an *empty dataframe* (no
exception); otherwise `astype(float)` on latitude and longitude only. -/
def parseRouteInfoInteractive (rid dir content : List Char) :
    Except (List Char) (List StopRow) :=
  let ms := findAux stopPat content
  if ms = [] then .ok []
  else
    let raw := ms.map (rawStopRow rid dir)
    match mapMOpt (fun r => (cellToFloat r.latitude).map
        fun c => { r with latitude := c }) raw with
    | none => .error convErrMsg
    | some rows1 =>
      match mapMOpt (fun r => (cellToFloat r.longitude).map
          fun c => { r with longitude := c }) rows1 with
      | none => .error convErrMsg
      | some rows2 => .ok rows2

/-- `taipei_route_list.parse_route_list`: raises on zero matches, strips
each route name. -/
def parseRouteList (content : List Char) :
    Except (List Char) (List (List Char × List Char)) :=
  let ms := findAux routePat content
  if ms = [] then .error "No data found for route table".toList
  else
    .ok (ms.map fun caps =>
      match caps with
      | [rid, name] => (rid, pyStrip name)
      | _ => ([], []))

/-- A row of the `data_route_list` table as `save_to_database` writes it
(primary key `route_id`). -/
structure RouteRow where
  route_id : List Char
  route_name : List Char
deriving DecidableEq, Repr

/-- `session.merge`: update the row carrying the same primary key if one
is present, else insert at the end (SQLAlchemy merge is generic in the
declared key; each table instantiates `keyf`). -/
def mergeBy (keyf : α → κ) [DecidableEq κ] (tbl : List α) (r : α) : List α :=
  if tbl.any fun x => decide (keyf x = keyf r) then
    tbl.map fun x => if keyf x = keyf r then r else x
  else tbl ++ [r]

/-- A `save_to_database` body: merge every dataframe row in order. -/
def upsertAll (keyf : α → κ) [DecidableEq κ] (tbl : List α)
    (rows : List α) : List α :=
  rows.foldl (mergeBy keyf) tbl

/-- `session.merge` on the route table (primary key `route_id`). -/
def mergeRoute : List RouteRow → RouteRow → List RouteRow :=
  mergeBy (·.route_id)

/-- `taipei_route_list.save_to_database`: merge every dataframe row. -/
def saveRoutesToDatabase (tbl : List RouteRow) (rows : List RouteRow) :
    List RouteRow :=
  upsertAll (·.route_id) tbl rows

/-- `taipei_route_list.read_from_database`: the whole table, in rowid
(insertion) order. -/
def readRoutesFromDatabase (tbl : List RouteRow) : List RouteRow := tbl

/-- A row of the `data_route_info_busstop` table.  SQLite is dynamically
typed, so cells keep whatever runtime type the dataframe handed over. -/
structure StopDbRow where
  stop_id : Cell
  arrival_info : Cell
  stop_number : Cell
  stop_name : Cell
  latitude : Cell
  longitude : Cell
  direction : List Char
  route_id : List Char
deriving DecidableEq, Repr

/-- The composite primary key of the stop table:
`(stop_number, direction, route_id)`. -/
def stopKey (r : StopDbRow) : Cell × List Char × List Char :=
  (r.stop_number, r.direction, r.route_id)

/-- `session.merge` on the stop table: upsert by composite primary key. -/
def mergeStop : List StopDbRow → StopDbRow → List StopDbRow :=
  mergeBy stopKey

/-- `taipei_route_info.save_to_database`: merge every dataframe row. -/
def saveStopsToDatabase (tbl : List StopDbRow) (rows : List StopDbRow) :
    List StopDbRow :=
  upsertAll stopKey tbl rows

/-- The field copy done inside `save_to_database`'s merge loop. -/
def toDbRow (r : StopRow) : StopDbRow :=
  ⟨r.stop_id, r.arrival_info, r.stop_number, r.stop_name,
   r.latitude, r.longitude, r.direction, r.route_id⟩

/-- The `RouteStatus` enum of `realtime_scraper.py`. -/
inductive RouteStatus where
  | pending
  | updated
  | failed
deriving DecidableEq, Repr

/-- A `data_route_list` row including the `route_data_updated` column. -/
structure RouteListRow where
  route_id : List Char
  route_name : List Char
  route_data_updated : RouteStatus
deriving DecidableEq, Repr

/-- `taipei_route_list.set_route_status`: `UPDATE ... WHERE route_id = rid`. -/
def setRouteStatus (tbl : List RouteListRow) (rid : List Char)
    (st : RouteStatus) : List RouteListRow :=
  tbl.map fun r =>
    if r.route_id = rid then { r with route_data_updated := st } else r

/-- The persistent state the driver loop threads through. -/
structure DbState where
  routes : List RouteListRow
  stops : List StopDbRow
deriving DecidableEq, Repr

/-- The `__main__` selection of `realtime_scraper.py`: route ids whose
status is still pending. -/
def pendingRouteIds (tbl : List RouteListRow) : List (List Char) :=
  (tbl.filter fun r => r.route_data_updated = .pending).map (·.route_id)

/-- One iteration of the `__main__` try/except of `realtime_scraper.py`:
fetch + parse + persist, marking `updated`; any failure is caught and
marks `failed` instead, leaving the stop table untouched.  `env` gives
the outcome of the network fetch for each route id.  Besides the new
state, the write made to the status column is reported. -/
def driverStep (env : List Char → Except (List Char) (List Char))
    (st : DbState) (rid : List Char) :
    DbState × List (List Char × RouteStatus) :=
  match (env rid).bind fun content =>
      parseRouteInfoRealtime rid "go".toList content with
  | .ok rows =>
    ({ routes := setRouteStatus st.routes rid .updated,
       stops := saveStopsToDatabase st.stops (rows.map toDbRow) },
     [(rid, .updated)])
  | .error _ =>
    ({ routes := setRouteStatus st.routes rid .failed, stops := st.stops },
     [(rid, .failed)])

/-- The whole driver loop over a list of route ids, with the trace of
status writes it performs. -/
def driverLoop (env : List Char → Except (List Char) (List Char))
    (st : DbState) : List (List Char) → DbState × List (List Char × RouteStatus)
  | [] => (st, [])
  | rid :: rids =>
    let p1 := driverStep env st rid
    let p2 := driverLoop env p1.1 rids
    (p2.1, p1.2 ++ p2.2)

/-- What the headless browser session would deliver: whether the
direction toggle can be clicked, and the page content with and without
the toggle applied. -/
structure RenderedPage where
  clickOk : Bool
  contentGo : List Char
  contentCome : List Char
deriving DecidableEq, Repr

inductive Direction where
  | go
  | come
deriving DecidableEq, Repr

/-- `taipei_route_info._fetch_content` of `00003.py`: the `come` click is
unguarded, so a missing/failed click target raises out of the fetch. -/
def fetchContent00003 (dir : Direction) (pg : RenderedPage) :
    Except (List Char) (List Char) :=
  match dir with
  | .go => .ok pg.contentGo
  | .come =>
    if pg.clickOk then .ok pg.contentCome
    else .error "Timeout waiting for selector".toList

/-- `taipei_route_info.fetch_route_info` of `interactive_bus_info.py`:
the `come` click sits in try/except — on failure it prints a diagnostic
and the fetch still returns whatever content loaded.  Result: the
content, plus the list of logged degradation messages. -/
def fetchRouteInfoInteractive (dir : Direction) (pg : RenderedPage) :
    List Char × List (List Char) :=
  match dir with
  | .go => (pg.contentGo, [])
  | .come =>
    if pg.clickOk then (pg.contentCome, [])
    else (pg.contentGo, ["click come button failed".toList])

/-- One row of the static `HW2.csv` data read by `BusRouteFinder`. -/
structure CsvRow where
  route_name : List Char
  direction_text : List Char
  stop_number : ℤ
  stop_name : List Char
deriving DecidableEq, Repr

/-- Insertion step of `sort_values('stop_number')`. -/
def insertByStopNumber (r : CsvRow) : List CsvRow → List CsvRow
  | [] => [r]
  | x :: xs =>
    if r.stop_number < x.stop_number then r :: x :: xs
    else x :: insertByStopNumber r xs

/-- `group.sort_values('stop_number')`. -/
def sortByStopNumber (l : List CsvRow) : List CsvRow :=
  l.foldr insertByStopNumber []

/-- The distinct `(route_name, direction_text)` keys of
`df.groupby(['route_name', 'direction_text'])`. -/
def groupKeysOf (df : List CsvRow) : List (List Char × List Char) :=
  (df.map fun r => (r.route_name, r.direction_text)).dedup

/-- One group's stop names, ordered by stop number. -/
def groupStops (df : List CsvRow) (k : List Char × List Char) :
    List (List Char) :=
  (sortByStopNumber (df.filter fun r =>
    decide (r.route_name = k.1 ∧ r.direction_text = k.2))).map (·.stop_name)

/-- One result dict of `BusRouteFinder.find_routes`. -/
structure RouteResult where
  route_name : List Char
  direction_text : List Char
  stops : List (List Char)
deriving DecidableEq, Repr

/-- Python `list.index`: position of the first occurrence. -/
def pyIndex (x : List Char) : List (List Char) → Nat
  | [] => 0
  | y :: ys => if y = x then 0 else pyIndex x ys + 1

/-- `BusRouteFinder.find_routes`: for each `(route, direction)` group,
keep it when both stops occur and the first occurrence of `origin`
precedes the first occurrence of `destination`, slicing the stop list
from `origin` to `destination` inclusive. -/
def findRoutes (df : List CsvRow) (origin destination : List Char) :
    List RouteResult :=
  (groupKeysOf df).filterMap fun k =>
    let stops := groupStops df k
    if origin ∈ stops ∧ destination ∈ stops then
      if pyIndex origin stops < pyIndex destination stops then
        some ⟨k.1, k.2,
          (stops.drop (pyIndex origin stops)).take
            (pyIndex destination stops - pyIndex origin stops + 1)⟩
      else none
    else none


/-- Relation between a pattern and the capture list any successful match
of it produces: one capture per capturing group, in group order, and a
class group's text only holds characters of its class (or of its seed
accumulator, empty for the patterns above). -/
def CapsOK : List RItem → List (List Char) → Prop
  | [], caps => caps = []
  | .lit _ :: rest, caps => CapsOK rest caps
  | .lazyAny cap _ :: rest, caps =>
    match cap with
    | false => CapsOK rest caps
    | true => ∃ x caps', caps = x :: caps' ∧ CapsOK rest caps'
  | .cls p cap _ acc :: rest, caps =>
    match cap with
    | false => CapsOK rest caps
    | true => ∃ x caps', caps = x :: caps' ∧
        (∀ c ∈ x, p c = true ∨ c ∈ acc) ∧ CapsOK rest caps'

/-- One `<li><a href="javascript:go('…')">…</a></li>` anchor of a
route-list page, preceded by arbitrary filler (`pre`). -/
structure RouteEntry where
  pre : List Char
  rid : List Char
  name : List Char

/-- The anchor text of one entry, exactly in the micro-syntax the
route-list pattern expects. -/
def routeAnchor (e : RouteEntry) : List Char :=
  "<li><a href=\"javascript:go('".toList ++ e.rid ++
    "')\">".toList ++ e.name ++ "</a></li>".toList

/-- A whole route-list page: each entry's filler and anchor in document
order, then trailing filler. -/
def buildRouteHtml (es : List RouteEntry) (trailing : List Char) : List Char :=
  (es.map fun e => e.pre ++ routeAnchor e).flatten ++ trailing

/-- Well-formedness of a fixture entry: filler opens no tag, the id holds
no quote, the name closes no tag. -/
def EntryOK (e : RouteEntry) : Prop :=
  (∀ c ∈ e.pre, c ≠ '<') ∧ ('\'' ∉ e.rid) ∧ (∀ c ∈ e.name, c ≠ '<')

/-- The latitude capture of one findall tuple (fifth group). -/
def latTextOfCaps (caps : List (List Char)) : List Char := caps.getD 4 []

/-- The stop rows stored for one route id. -/
def stopsOfRoute (tbl : List StopDbRow) (rid : List Char) : List StopDbRow :=
  tbl.filter fun r => decide (r.route_id = rid)

/-- The status column content for one route id. -/
def statusOf (tbl : List RouteListRow) (rid : List Char) : List RouteStatus :=
  (tbl.filter fun r => decide (r.route_id = rid)).map (·.route_data_updated)

/-- The cell holds a Python `str`. -/
def Cell.isS : Cell → Bool
  | .s _ => true
  | _ => false

/-- The cell holds a Python `int`. -/
def Cell.isI : Cell → Bool
  | .i _ => true
  | _ => false

/-- The cell holds a Python `float`. -/
def Cell.isF : Cell → Bool
  | .f _ => true
  | _ => false

/-- The numeric value of a float cell (0 for other cells). -/
def Cell.fval : Cell → ℚ
  | .f q => q
  | _ => 0

/-- The latitude cells of a parse result (empty on error). -/
def latCells (res : Except (List Char) (List StopRow)) : List Cell :=
  (res.toOption.getD []).map (·.latitude)

/-- The longitude cells of a parse result (empty on error). -/
def lonCells (res : Except (List Char) (List StopRow)) : List Cell :=
  (res.toOption.getD []).map (·.longitude)

instance {e a : Type} [DecidableEq e] [DecidableEq a] :
    DecidableEq (Except e a) := fun x y =>
  match x, y with
  | .ok v, .ok w =>
    if h : v = w then .isTrue (by rw [h]) else .isFalse (by simp [h])
  | .error v, .error w =>
    if h : v = w then .isTrue (by rw [h]) else .isFalse (by simp [h])
  | .ok _, .error _ => .isFalse (by simp)
  | .error _, .ok _ => .isFalse (by simp)

/-- The status a scrape attempt for `rid` ends in: `updated` when fetch
and parse both succeed, `failed` otherwise. -/
def attemptOutcome (env : List Char → Except (List Char) (List Char))
    (rid : List Char) : RouteStatus :=
  match (env rid).bind fun content =>
      parseRouteInfoRealtime rid "go".toList content with
  | .ok _ => .updated
  | .error _ => .failed

/-- A small concrete route table used by witnesses. -/
def demoTbl : List RouteListRow :=
  [⟨"001".toList, "n1".toList, .pending⟩,
   ⟨"002".toList, "n2".toList, .updated⟩]

/-- A fetch environment where every network fetch fails. -/
def offlineEnv : List Char → Except (List Char) (List Char) :=
  fun _ => .error "net down".toList

lemma filter_map_replaceKey (keyf : α → κ) [DecidableEq κ] (r : α)
    (tbl : List α) :
    ((tbl.map fun x => if keyf x = keyf r then r else x).filter
      fun x => decide (keyf x = keyf r)) =
    List.replicate ((tbl.filter fun x => decide (keyf x = keyf r)).length) r := by
  induction tbl with
  | nil => simp
  | cons x xs ih =>
    by_cases hx : keyf x = keyf r
    · simp only [List.map_cons, if_pos hx, List.filter_cons,
        decide_eq_true_eq, hx, if_pos rfl, List.length_cons]
      simp [ih, List.replicate_succ]
    · simp only [List.map_cons, if_neg hx, List.filter_cons,
        decide_eq_true_eq, hx]
      simp [ih, hx]

lemma filterKey_mergeBy (keyf : α → κ) [DecidableEq κ] (tbl : List α) (r : α)
    (h : (tbl.filter fun x => decide (keyf x = keyf r)).length ≤ 1) :
    ((mergeBy keyf tbl r).filter fun x => decide (keyf x = keyf r)) = [r] := by
  unfold mergeBy
  by_cases hany : tbl.any fun x => decide (keyf x = keyf r)
  · rw [if_pos hany, filter_map_replaceKey]
    obtain ⟨x, hx, hkx⟩ := List.any_eq_true.mp hany
    have hmem : x ∈ tbl.filter fun x => decide (keyf x = keyf r) :=
      List.mem_filter.mpr ⟨hx, hkx⟩
    have hlen : 0 < (tbl.filter fun x => decide (keyf x = keyf r)).length :=
      List.length_pos.mpr (List.ne_nil_of_mem hmem)
    have hone : (tbl.filter fun x => decide (keyf x = keyf r)).length = 1 := by
      omega
    rw [hone]
    simp
  · rw [if_neg hany, List.filter_append]
    have hnil : (tbl.filter fun x => decide (keyf x = keyf r)) = [] := by
      rw [List.filter_eq_nil_iff]
      intro x hx
      intro hkx
      exact hany (List.any_eq_true.mpr ⟨x, hx, hkx⟩)
    simp [hnil]

lemma length_filterKey_le_one (keyf : α → κ) [DecidableEq κ] (tbl : List α)
    (h : (tbl.map keyf).Nodup) (k : κ) :
    (tbl.filter fun x => decide (keyf x = k)).length ≤ 1 := by
  induction tbl with
  | nil => simp
  | cons x xs ih =>
    simp only [List.map_cons, List.nodup_cons] at h
    obtain ⟨hnx, hnd⟩ := h
    by_cases hx : keyf x = k
    · have hnil : (xs.filter fun y => decide (keyf y = k)) = [] := by
        rw [List.filter_eq_nil_iff]
        intro y hy hky
        have : keyf y = keyf x := by
          rw [hx]
          simpa using hky
        exact hnx (this ▸ List.mem_map_of_mem keyf hy)
      simp [List.filter_cons, hx, hnil]
    · simp only [List.filter_cons, decide_eq_true_eq, hx, if_false]
      exact ih hnd

lemma filterKey_mergeBy_twice (keyf : α → κ) [DecidableEq κ] (tbl : List α)
    (r1 r2 : α) (hnd : (tbl.map keyf).Nodup) (hk : keyf r1 = keyf r2) :
    ((mergeBy keyf (mergeBy keyf tbl r1) r2).filter
      fun x => decide (keyf x = keyf r2)) = [r2] := by
  apply filterKey_mergeBy
  have h1 : ((mergeBy keyf tbl r1).filter
      fun x => decide (keyf x = keyf r1)) = [r1] :=
    filterKey_mergeBy keyf tbl r1 (length_filterKey_le_one keyf tbl hnd _)
  rw [← hk, h1]
  simp

/-- C1: persisting through `save_to_database` is an idempotent
last-write-wins upsert by natural key: on a table whose primary keys are
unique, writing two records with the same key (`route_id` for routes,
`(stop_number, direction, route_id)` for stops) but different other
fields leaves exactly one row for that key, holding the second write's
field values. -/
theorem save_to_database_last_write_wins :
    (∀ (rtbl : List RouteRow) (r1 r2 : RouteRow),
      (rtbl.map (·.route_id)).Nodup → r1.route_id = r2.route_id →
      ((saveRoutesToDatabase (saveRoutesToDatabase rtbl [r1]) [r2]).filter
        fun x => decide (x.route_id = r2.route_id)) = [r2]) ∧
    (∀ (stbl : List StopDbRow) (s1 s2 : StopDbRow),
      (stbl.map stopKey).Nodup → stopKey s1 = stopKey s2 →
      ((saveStopsToDatabase (saveStopsToDatabase stbl [s1]) [s2]).filter
        fun x => decide (stopKey x = stopKey s2)) = [s2]) := by
  constructor
  · intro rtbl r1 r2 hnd hk
    simpa [saveRoutesToDatabase, upsertAll] using
      filterKey_mergeBy_twice (·.route_id) rtbl r1 r2 hnd hk
  · intro stbl s1 s2 hnd hk
    simpa [saveStopsToDatabase, upsertAll] using
      filterKey_mergeBy_twice stopKey stbl s1 s2 hnd hk

/-- Witness for C1 at concrete inputs: an empty store, the same key
written twice with different non-key fields. -/
theorem save_to_database_last_write_wins_witness :
    ((saveRoutesToDatabase (saveRoutesToDatabase []
        [⟨"001".toList, "old name".toList⟩])
        [⟨"001".toList, "new name".toList⟩]).filter
      fun x => decide (x.route_id = "001".toList)) =
        [⟨"001".toList, "new name".toList⟩] ∧
    ((saveStopsToDatabase (saveStopsToDatabase []
        [⟨.i 9, .s "old".toList, .i 1, .s "stop".toList, .f 25, .f 121,
          "go".toList, "001".toList⟩])
        [⟨.i 9, .s "new".toList, .i 1, .s "stop2".toList, .f 26, .f 122,
          "go".toList, "001".toList⟩]).filter
      fun x => decide (stopKey x =
        stopKey ⟨.i 9, .s "new".toList, .i 1, .s "stop2".toList, .f 26,
          .f 122, "go".toList, "001".toList⟩)) =
        [⟨.i 9, .s "new".toList, .i 1, .s "stop2".toList, .f 26, .f 122,
          "go".toList, "001".toList⟩] :=
  ⟨save_to_database_last_write_wins.1 []
      ⟨"001".toList, "old name".toList⟩
      ⟨"001".toList, "new name".toList⟩ (by simp) rfl,
   save_to_database_last_write_wins.2 []
      ⟨.i 9, .s "old".toList, .i 1, .s "stop".toList, .f 25, .f 121,
        "go".toList, "001".toList⟩
      ⟨.i 9, .s "new".toList, .i 1, .s "stop2".toList, .f 26, .f 122,
        "go".toList, "001".toList⟩ (by simp) rfl⟩

lemma upsertAll_of_disjoint (keyf : α → κ) [DecidableEq κ]
    (rs : List α) : ∀ (tbl : List α), (rs.map keyf).Nodup →
    (∀ r ∈ rs, ∀ x ∈ tbl, keyf x ≠ keyf r) →
    upsertAll keyf tbl rs = tbl ++ rs := by
  induction rs with
  | nil => intro tbl _ _; simp [upsertAll]
  | cons r rs ih =>
    intro tbl hnd hdisj
    simp only [List.map_cons, List.nodup_cons] at hnd
    have hany : (tbl.any fun x => decide (keyf x = keyf r)) = false := by
      simp only [List.any_eq_false, decide_eq_true_eq]
      intro x hx
      exact hdisj r (List.mem_cons_self r rs) x hx
    have hstep : mergeBy keyf tbl r = tbl ++ [r] := by
      unfold mergeBy
      rw [hany]
      simp
    have hrest : upsertAll keyf (tbl ++ [r]) rs = (tbl ++ [r]) ++ rs := by
      apply ih (tbl ++ [r]) hnd.2
      intro r' hr' x hx
      rcases List.mem_append.mp hx with hx | hx
      · exact hdisj r' (List.mem_cons_of_mem r hr') x hx
      · have hxr : x = r := by simpa using hx
        subst hxr
        intro hkk
        exact hnd.1 (hkk ▸ List.mem_map_of_mem keyf hr')
    calc upsertAll keyf tbl (r :: rs)
        = upsertAll keyf (mergeBy keyf tbl r) rs := rfl
      _ = (tbl ++ [r]) ++ rs := by rw [hstep, hrest]
      _ = tbl ++ r :: rs := by simp

/-- Counterexample to C8 as stated: (i) a two-record list sharing one
`route_id` reads back as a single row, not two; (ii) on a non-empty
store, reading back returns pre-existing rows on top of the one written. -/
theorem route_roundtrip_counterexample :
    (readRoutesFromDatabase (saveRoutesToDatabase []
      [⟨"001".toList, "n1".toList⟩,
       ⟨"001".toList, "n2".toList⟩])).length ≠ 2 ∧
    (readRoutesFromDatabase (saveRoutesToDatabase
      [⟨"000".toList, "pre".toList⟩]
      [⟨"001".toList, "n1".toList⟩])).length ≠ 1 := by
  constructor <;> decide

/-- C8 as amended: starting from an empty store, persisting `N` route
records with pairwise-distinct route ids and reading back yields exactly
those `N` records — same length, same `(route_id, route_name)` members,
whatever order the read-back is consumed in. -/
theorem route_roundtrip_amended (rs : List RouteRow)
    (hnd : (rs.map (·.route_id)).Nodup) :
    (readRoutesFromDatabase (saveRoutesToDatabase [] rs)).length = rs.length ∧
    ∀ p : RouteRow,
      p ∈ readRoutesFromDatabase (saveRoutesToDatabase [] rs) ↔ p ∈ rs := by
  have h : saveRoutesToDatabase [] rs = rs := by
    have := upsertAll_of_disjoint (·.route_id) rs [] hnd (by simp)
    simpa [saveRoutesToDatabase] using this
  rw [readRoutesFromDatabase, h]
  exact ⟨rfl, fun _ => Iff.rfl⟩

/-- Witness for the amended C8 at a concrete two-route store. -/
theorem route_roundtrip_amended_witness :
    (readRoutesFromDatabase (saveRoutesToDatabase []
      [⟨"001".toList, "n1".toList⟩,
       ⟨"002".toList, "n2".toList⟩])).length = 2 ∧
    ⟨"002".toList, "n2".toList⟩ ∈ readRoutesFromDatabase
      (saveRoutesToDatabase []
        [⟨"001".toList, "n1".toList⟩, ⟨"002".toList, "n2".toList⟩]) :=
  have h := route_roundtrip_amended
    [⟨"001".toList, "n1".toList⟩, ⟨"002".toList, "n2".toList⟩] (by decide)
  ⟨h.1, (h.2 ⟨"002".toList, "n2".toList⟩).mpr (by decide)⟩

/-- Counterexample to C5 as stated: in `00003.py` the directional click
of a `come` fetch is unguarded — when the click target is absent the
fetch aborts with the propagated error instead of returning content. -/
theorem come_click_failure_counterexample :
    fetchContent00003 .come
      ⟨false, "go page".toList, "come page".toList⟩ =
    .error "Timeout waiting for selector".toList := by
  decide

/-- C5 as amended: only `interactive_bus_info.py` treats a failed `come`
click as non-fatal — it logs the degradation and returns the content
that loaded without the toggle; in `00003.py` (`_fetch_content`) the
same failure propagates and aborts the fetch. -/
theorem come_click_failure_amended (pg : RenderedPage)
    (h : pg.clickOk = false) :
    fetchRouteInfoInteractive .come pg =
      (pg.contentGo, ["click come button failed".toList]) ∧
    fetchContent00003 .come pg =
      .error "Timeout waiting for selector".toList := by
  constructor
  · simp [fetchRouteInfoInteractive, h]
  · simp [fetchContent00003, h]

/-- Witness for the amended C5 at a concrete page. -/
theorem come_click_failure_amended_witness :
    fetchRouteInfoInteractive .come
      ⟨false, "loaded go".toList, "loaded come".toList⟩ =
      ("loaded go".toList, ["click come button failed".toList]) ∧
    fetchContent00003 .come
      ⟨false, "loaded go".toList, "loaded come".toList⟩ =
      .error "Timeout waiting for selector".toList :=
  come_click_failure_amended
    ⟨false, "loaded go".toList, "loaded come".toList⟩ rfl

/-- Counterexample to C2 as stated: the stop-list extractor of
`interactive_bus_info.py` does not raise when the pattern matches zero
times — on empty page content it returns an empty record list. -/
theorem no_match_counterexample :
    parseRouteInfoInteractive "0161000900".toList "go".toList [] =
      .ok [] := by
  decide

/-- C2 as amended: on zero pattern matches, the extractors of `00003.py`
and `realtime_scraper.py` raise a no-data `ValueError` (both record
shapes), while the `interactive_bus_info.py` stop extractor instead
prints a diagnostic and returns an empty result. -/
theorem no_match_raises_amended (rid dir content : List Char)
    (hstop : findAux stopPat content = [])
    (hroute : findAux routePat content = []) :
    parseRouteInfo00003 rid dir content = .error (noDataMsg rid) ∧
    parseRouteInfoRealtime rid dir content = .error (noDataMsg rid) ∧
    parseRouteList content = .error "No data found for route table".toList ∧
    parseRouteInfoInteractive rid dir content = .ok [] := by
  refine ⟨?_, ?_, ?_, ?_⟩
  · simp [parseRouteInfo00003, hstop]
  · simp [parseRouteInfoRealtime, hstop]
  · simp [parseRouteList, hroute]
  · simp [parseRouteInfoInteractive, hstop]

/-- Witness for the amended C2 on a fixture with zero matching anchors. -/
theorem no_match_raises_amended_witness :
    parseRouteInfo00003 "0161000900".toList "go".toList
      "<ul><li>no anchors here</li></ul>".toList =
      .error (noDataMsg "0161000900".toList) ∧
    parseRouteInfoRealtime "0161000900".toList "go".toList
      "<ul><li>no anchors here</li></ul>".toList =
      .error (noDataMsg "0161000900".toList) ∧
    parseRouteList "<ul><li>no anchors here</li></ul>".toList =
      .error "No data found for route table".toList ∧
    parseRouteInfoInteractive "0161000900".toList "go".toList
      "<ul><li>no anchors here</li></ul>".toList = .ok [] :=
  no_match_raises_amended "0161000900".toList "go".toList
    "<ul><li>no anchors here</li></ul>".toList (by decide) (by decide)

lemma driverStep_trace (env : List Char → Except (List Char) (List Char))
    (st : DbState) (rid : List Char) :
    (driverStep env st rid).2 = [(rid, attemptOutcome env rid)] := by
  unfold driverStep attemptOutcome
  rcases h : (env rid).bind fun content =>
      parseRouteInfoRealtime rid "go".toList content with e | rows <;> simp [h]

lemma driverLoop_trace (env : List Char → Except (List Char) (List Char))
    (rids : List (List Char)) : ∀ st : DbState,
    (driverLoop env st rids).2 =
      rids.map fun rid => (rid, attemptOutcome env rid) := by
  induction rids with
  | nil => intro st; rfl
  | cons rid rids ih =>
    intro st
    show (driverStep env st rid).2 ++
      (driverLoop env (driverStep env st rid).1 rids).2 = _
    rw [driverStep_trace, ih]
    rfl

lemma attemptOutcome_cases (env : List Char → Except (List Char) (List Char))
    (rid : List Char) :
    attemptOutcome env rid = .updated ∨ attemptOutcome env rid = .failed := by
  unfold attemptOutcome
  rcases (env rid).bind fun content =>
      parseRouteInfoRealtime rid "go".toList content with e | rows <;> simp

/-- C7: over the driver's own selection (routes still `pending`), every
scrape attempt writes the status exactly once: the write trace is one
entry per attempt in attempt order, each attempted route appears only
once, each attempted route was `pending` beforehand, and the value
written is only ever `updated` (success) or `failed` (failure). -/
theorem driver_status_exactly_once
    (env : List Char → Except (List Char) (List Char))
    (tbl : List RouteListRow) (stops : List StopDbRow)
    (hnd : (tbl.map (·.route_id)).Nodup) :
    ((driverLoop env ⟨tbl, stops⟩ (pendingRouteIds tbl)).2 =
      (pendingRouteIds tbl).map fun rid => (rid, attemptOutcome env rid)) ∧
    (pendingRouteIds tbl).Nodup ∧
    (∀ rid ∈ pendingRouteIds tbl, ∃ row ∈ tbl,
      row.route_id = rid ∧ row.route_data_updated = .pending) ∧
    (∀ e ∈ (driverLoop env ⟨tbl, stops⟩ (pendingRouteIds tbl)).2,
      e.2 = RouteStatus.updated ∨ e.2 = RouteStatus.failed) := by
  refine ⟨driverLoop_trace env (pendingRouteIds tbl) ⟨tbl, stops⟩, ?_, ?_, ?_⟩
  · have hsub : List.Sublist ((tbl.filter fun r =>
        decide (r.route_data_updated = .pending)).map (·.route_id))
        (tbl.map (·.route_id)) :=
      (List.filter_sublist tbl).map (·.route_id)
    exact hnd.sublist hsub
  · intro rid hrid
    simp only [pendingRouteIds, List.mem_map, List.mem_filter,
      decide_eq_true_eq] at hrid
    obtain ⟨row, ⟨hmem, hpend⟩, hid⟩ := hrid
    exact ⟨row, hmem, hid, hpend⟩
  · intro e he
    rw [driverLoop_trace] at he
    simp only [List.mem_map] at he
    obtain ⟨rid, _, hrid⟩ := he
    rw [← hrid]
    exact attemptOutcome_cases env rid

/-- Witness for C7: one pending and one already-updated route, an
environment whose fetches fail. -/
theorem driver_status_exactly_once_witness :
    ((driverLoop offlineEnv ⟨demoTbl, []⟩ (pendingRouteIds demoTbl)).2 =
      (pendingRouteIds demoTbl).map
        fun rid => (rid, attemptOutcome offlineEnv rid)) ∧
    (pendingRouteIds demoTbl).Nodup ∧
    (∀ rid ∈ pendingRouteIds demoTbl, ∃ row ∈ demoTbl,
      row.route_id = rid ∧ row.route_data_updated = .pending) ∧
    (∀ e ∈ (driverLoop offlineEnv ⟨demoTbl, []⟩ (pendingRouteIds demoTbl)).2,
      e.2 = RouteStatus.updated ∨ e.2 = RouteStatus.failed) :=
  driver_status_exactly_once offlineEnv demoTbl [] (by decide)

lemma mapMOpt_mem {f : α → Option β} :
    ∀ {l : List α} {ys : List β}, mapMOpt f l = some ys →
    ∀ y ∈ ys, ∃ x ∈ l, f x = some y := by
  intro l
  induction l with
  | nil =>
    intro ys h y hy
    simp [mapMOpt] at h
    subst h
    cases hy
  | cons x xs ih =>
    intro ys h y hy
    unfold mapMOpt at h
    rcases hx : f x with _ | z
    · rw [hx] at h; cases h
    · rw [hx] at h
      rcases hxs : mapMOpt f xs with _ | zs
      · rw [hxs] at h; cases h
      · rw [hxs] at h
        cases h
        rcases List.mem_cons.mp hy with hy | hy
        · exact ⟨x, List.mem_cons_self x xs, hy ▸ hx⟩
        · obtain ⟨w, hw, hfw⟩ := ih hxs y hy
          exact ⟨w, List.mem_cons_of_mem x hw, hfw⟩

lemma rawStopRow_route_id (rid dir : List Char) (caps : List (List Char)) :
    (rawStopRow rid dir caps).route_id = rid := by
  unfold rawStopRow
  split <;> rfl

lemma parseRouteInfoRealtime_route_id (rid dir content : List Char)
    (rows : List StopRow) (h : parseRouteInfoRealtime rid dir content = .ok rows) :
    ∀ x ∈ rows, x.route_id = rid := by
  unfold parseRouteInfoRealtime at h
  by_cases hms : findAux stopPat content = []
  · simp [hms] at h
  · simp only [hms, if_false] at h
    split at h
    · cases h
    · rename_i rows1 h1
      split at h
      · cases h
      · rename_i rows2 h2
        split at h
        · cases h
        · rename_i rows3 h3
          cases h
          intro x hx
          obtain ⟨x2, hx2, hfx2⟩ := mapMOpt_mem h3 x hx
          obtain ⟨c, _, hxc⟩ := Option.map_eq_some'.mp hfx2
          obtain ⟨x3, hx3, hfx3⟩ := mapMOpt_mem h2 x2 hx2
          obtain ⟨c3, _, hxc3⟩ := Option.map_eq_some'.mp hfx3
          obtain ⟨x4, hx4, hfx4⟩ := mapMOpt_mem h1 x3 hx3
          obtain ⟨c4, _, hxc4⟩ := Option.map_eq_some'.mp hfx4
          obtain ⟨caps, _, hcaps⟩ := List.mem_map.mp hx4
          have : x.route_id = x4.route_id := by
            rw [← hxc, ← hxc3, ← hxc4]
          rw [this, ← hcaps, rawStopRow_route_id]

lemma statusOf_set_ne (tbl : List RouteListRow) (rid r' : List Char)
    (v : RouteStatus) (h : r' ≠ rid) :
    statusOf (setRouteStatus tbl rid v) r' = statusOf tbl r' := by
  induction tbl with
  | nil => rfl
  | cons row rows ih =>
    unfold setRouteStatus at ih ⊢
    unfold statusOf at ih ⊢
    by_cases hrow : row.route_id = rid
    · have hne : ¬row.route_id = r' := fun hc => h (hc ▸ hrow)
      simp only [List.map_cons, if_pos hrow, List.filter_cons]
      simp [hne, ih]
    · simp only [List.map_cons, if_neg hrow, List.filter_cons]
      by_cases hr : row.route_id = r' <;> simp [hr, ih]

lemma statusOf_set_self (tbl : List RouteListRow) (rid : List Char)
    (v : RouteStatus) :
    statusOf (setRouteStatus tbl rid v) rid =
      List.replicate (statusOf tbl rid).length v := by
  induction tbl with
  | nil => rfl
  | cons row rows ih =>
    unfold setRouteStatus at ih ⊢
    unfold statusOf at ih ⊢
    by_cases hrow : row.route_id = rid
    · simp only [List.map_cons, if_pos hrow, List.filter_cons]
      simp [hrow, ih, List.replicate_succ]
    · simp only [List.map_cons, if_neg hrow, List.filter_cons]
      simp [hrow, ih]

lemma statusOf_set_eq (tbl1 tbl2 : List RouteListRow) (rid r' : List Char)
    (v : RouteStatus) (h : statusOf tbl1 r' = statusOf tbl2 r') :
    statusOf (setRouteStatus tbl1 rid v) r' =
      statusOf (setRouteStatus tbl2 rid v) r' := by
  by_cases hr : r' = rid
  · subst hr
    rw [statusOf_set_self, statusOf_set_self, h]
  · rw [statusOf_set_ne tbl1 rid r' v hr, statusOf_set_ne tbl2 rid r' v hr, h]

lemma stopKey_route_id {x y : StopDbRow} (h : stopKey x = stopKey y) :
    x.route_id = y.route_id := by
  unfold stopKey at h
  exact congrArg (fun p => p.2.2) h

lemma filter_replace_stop_ne (row : StopDbRow) (r' : List Char)
    (h : row.route_id ≠ r') : ∀ tbl : List StopDbRow,
    ((tbl.map fun x => if stopKey x = stopKey row then row else x).filter
      fun y => decide (y.route_id = r')) =
    tbl.filter fun y => decide (y.route_id = r') := by
  intro tbl
  induction tbl with
  | nil => rfl
  | cons x xs ih =>
    simp only [List.map_cons, List.filter_cons]
    by_cases hk : stopKey x = stopKey row
    · have hxr : x.route_id = row.route_id := stopKey_route_id hk
      have hx' : ¬x.route_id = r' := fun hc => h (hxr ▸ hc)
      simp only [if_pos hk]
      simp [h, hx', ih]
    · simp only [if_neg hk]
      by_cases hx' : x.route_id = r' <;> simp [hx', ih]

lemma stopsOfRoute_mergeStop_ne (tbl : List StopDbRow) (row : StopDbRow)
    (r' : List Char) (h : row.route_id ≠ r') :
    stopsOfRoute (mergeStop tbl row) r' = stopsOfRoute tbl r' := by
  unfold mergeStop mergeBy stopsOfRoute
  by_cases hany : tbl.any fun x => decide (stopKey x = stopKey row)
  · rw [if_pos hany]
    exact filter_replace_stop_ne row r' h tbl
  · rw [if_neg hany, List.filter_append]
    simp [h]

lemma stopsOfRoute_saveStops_ne (rows : List StopDbRow) (r' : List Char)
    (h : ∀ x ∈ rows, x.route_id ≠ r') :
    ∀ tbl, stopsOfRoute (saveStopsToDatabase tbl rows) r' =
      stopsOfRoute tbl r' := by
  induction rows with
  | nil => intro tbl; rfl
  | cons x xs ih =>
    intro tbl
    show stopsOfRoute (saveStopsToDatabase (mergeStop tbl x) xs) r' = _
    rw [ih (fun y hy => h y (List.mem_cons_of_mem x hy)),
      stopsOfRoute_mergeStop_ne tbl x r' (h x (List.mem_cons_self x xs))]

lemma any_stopKey_filter (tbl : List StopDbRow) (row : StopDbRow)
    (r' : List Char) (h : row.route_id = r') :
    (tbl.any fun x => decide (stopKey x = stopKey row)) =
      ((stopsOfRoute tbl r').any fun x => decide (stopKey x = stopKey row)) := by
  induction tbl with
  | nil => rfl
  | cons x xs ih =>
    unfold stopsOfRoute at ih ⊢
    simp only [List.any_cons, List.filter_cons]
    by_cases hk : stopKey x = stopKey row
    · have hx' : x.route_id = r' := h ▸ stopKey_route_id hk
      simp [hx', hk]
    · by_cases hx' : x.route_id = r' <;> simp [hx', hk, ih]

lemma filter_replace_stop_self (row : StopDbRow) (r' : List Char)
    (h : row.route_id = r') : ∀ tbl : List StopDbRow,
    ((tbl.map fun x => if stopKey x = stopKey row then row else x).filter
      fun y => decide (y.route_id = r')) =
    (tbl.filter fun y => decide (y.route_id = r')).map
      fun x => if stopKey x = stopKey row then row else x := by
  intro tbl
  induction tbl with
  | nil => rfl
  | cons x xs ih =>
    simp only [List.map_cons, List.filter_cons]
    by_cases hk : stopKey x = stopKey row
    · have hx' : x.route_id = r' := h ▸ stopKey_route_id hk
      simp [hx', hk, h, ih]
    · by_cases hx' : x.route_id = r' <;> simp [hx', hk, ih]

lemma stopsOfRoute_mergeStop_self (tbl : List StopDbRow) (row : StopDbRow)
    (r' : List Char) (h : row.route_id = r') :
    stopsOfRoute (mergeStop tbl row) r' =
      mergeStop (stopsOfRoute tbl r') row := by
  unfold mergeStop mergeBy
  rw [any_stopKey_filter tbl row r' h]
  by_cases hany : (stopsOfRoute tbl r').any
      fun x => decide (stopKey x = stopKey row)
  · rw [if_pos hany, if_pos hany]
    unfold stopsOfRoute
    exact filter_replace_stop_self row r' h tbl
  · rw [if_neg hany, if_neg hany]
    unfold stopsOfRoute
    rw [List.filter_append]
    simp [h]

lemma stopsOfRoute_saveStops_self (r' : List Char) (rows : List StopDbRow)
    (h : ∀ x ∈ rows, x.route_id = r') :
    ∀ tbl, stopsOfRoute (saveStopsToDatabase tbl rows) r' =
      saveStopsToDatabase (stopsOfRoute tbl r') rows := by
  induction rows with
  | nil => intro tbl; rfl
  | cons x xs ih =>
    intro tbl
    show stopsOfRoute (saveStopsToDatabase (mergeStop tbl x) xs) r' = _
    rw [ih (fun y hy => h y (List.mem_cons_of_mem x hy)),
      stopsOfRoute_mergeStop_self tbl x r' (h x (List.mem_cons_self x xs))]
    rfl

lemma stopsOfRoute_saveStops_congr (rows : List StopDbRow) (rid : List Char)
    (hrows : ∀ x ∈ rows, x.route_id = rid) (r' : List Char)
    (tbl1 tbl2 : List StopDbRow)
    (h : stopsOfRoute tbl1 r' = stopsOfRoute tbl2 r') :
    stopsOfRoute (saveStopsToDatabase tbl1 rows) r' =
      stopsOfRoute (saveStopsToDatabase tbl2 rows) r' := by
  by_cases hr : rid = r'
  · subst hr
    rw [stopsOfRoute_saveStops_self rid rows hrows tbl1,
      stopsOfRoute_saveStops_self rid rows hrows tbl2, h]
  · have hne : ∀ x ∈ rows, x.route_id ≠ r' :=
      fun x hx hc => hr ((hrows x hx) ▸ hc)
    rw [stopsOfRoute_saveStops_ne rows r' hne tbl1,
      stopsOfRoute_saveStops_ne rows r' hne tbl2, h]

lemma driverStep_proj_other (env : List Char → Except (List Char) (List Char))
    (st : DbState) (rid r' : List Char) (h : rid ≠ r') :
    stopsOfRoute (driverStep env st rid).1.stops r' =
      stopsOfRoute st.stops r' ∧
    statusOf (driverStep env st rid).1.routes r' = statusOf st.routes r' := by
  unfold driverStep
  rcases hout : (env rid).bind fun content =>
      parseRouteInfoRealtime rid "go".toList content with e | rows
  · exact ⟨rfl, statusOf_set_ne st.routes rid r' .failed (Ne.symm h)⟩
  · have hrows : ∀ x ∈ rows.map toDbRow, x.route_id ≠ r' := by
      intro x hx
      obtain ⟨y, hy, hxy⟩ := List.mem_map.mp hx
      rcases henv : env rid with e | content
      · rw [henv] at hout; cases hout
      · rw [henv] at hout
        have hpar : parseRouteInfoRealtime rid "go".toList content =
            .ok rows := hout
        have := parseRouteInfoRealtime_route_id rid "go".toList content
          rows hpar y hy
        rw [← hxy]
        show y.route_id ≠ r'
        rw [this]
        exact h
    exact ⟨stopsOfRoute_saveStops_ne (rows.map toDbRow) r' hrows st.stops,
      statusOf_set_ne st.routes rid r' .updated (Ne.symm h)⟩

lemma driverStep_proj_congr (env env' : List Char → Except (List Char) (List Char))
    (rid : List Char) (henv : env rid = env' rid) (r' : List Char)
    (st1 st2 : DbState)
    (hstops : stopsOfRoute st1.stops r' = stopsOfRoute st2.stops r')
    (hstatus : statusOf st1.routes r' = statusOf st2.routes r') :
    stopsOfRoute (driverStep env st1 rid).1.stops r' =
      stopsOfRoute (driverStep env' st2 rid).1.stops r' ∧
    statusOf (driverStep env st1 rid).1.routes r' =
      statusOf (driverStep env' st2 rid).1.routes r' := by
  unfold driverStep
  rw [← henv]
  rcases hout : (env rid).bind fun content =>
      parseRouteInfoRealtime rid "go".toList content with e | rows
  · exact ⟨hstops, statusOf_set_eq st1.routes st2.routes rid r' .failed hstatus⟩
  · have hrows : ∀ x ∈ rows.map toDbRow, x.route_id = rid := by
      intro x hx
      obtain ⟨y, hy, hxy⟩ := List.mem_map.mp hx
      rcases henv2 : env rid with e | content
      · rw [henv2] at hout; cases hout
      · rw [henv2] at hout
        have hpar : parseRouteInfoRealtime rid "go".toList content =
            .ok rows := hout
        have := parseRouteInfoRealtime_route_id rid "go".toList content
          rows hpar y hy
        rw [← hxy]
        exact this
    exact ⟨stopsOfRoute_saveStops_congr (rows.map toDbRow) rid hrows r'
        st1.stops st2.stops hstops,
      statusOf_set_eq st1.routes st2.routes rid r' .updated hstatus⟩

lemma driverLoop_proj (env env' : List Char → Except (List Char) (List Char))
    (r : List Char) (hagree : ∀ q, q ≠ r → env q = env' q)
    (r' : List Char) (hne : r' ≠ r) (rids : List (List Char)) :
    ∀ st1 st2 : DbState,
      stopsOfRoute st1.stops r' = stopsOfRoute st2.stops r' →
      statusOf st1.routes r' = statusOf st2.routes r' →
      stopsOfRoute (driverLoop env st1 rids).1.stops r' =
        stopsOfRoute (driverLoop env' st2 rids).1.stops r' ∧
      statusOf (driverLoop env st1 rids).1.routes r' =
        statusOf (driverLoop env' st2 rids).1.routes r' := by
  induction rids with
  | nil => intro st1 st2 h1 h2; exact ⟨h1, h2⟩
  | cons rid rids ih =>
    intro st1 st2 h1 h2
    show stopsOfRoute (driverLoop env (driverStep env st1 rid).1 rids).1.stops
        r' = _ ∧
      statusOf (driverLoop env (driverStep env st1 rid).1 rids).1.routes
        r' = _
    by_cases hq : rid = r
    · have hrid : rid ≠ r' := fun hc => hne (hc ▸ hq ▸ rfl)
      obtain ⟨ha1, hb1⟩ := driverStep_proj_other env st1 rid r' hrid
      obtain ⟨ha2, hb2⟩ := driverStep_proj_other env' st2 rid r' hrid
      exact ih _ _ (ha1.trans (h1.trans ha2.symm))
        (hb1.trans (h2.trans hb2.symm))
    · obtain ⟨ha, hb⟩ := driverStep_proj_congr env env' rid
        (hagree rid hq) r' st1 st2 h1 h2
      exact ih _ _ ha hb

/-- C4: the driver never aborts the batch — it writes one status entry
per configured route, in order (trace characterisation); a failing fetch
or parse makes that route's status write `failed`; and a per-route
difference in outcomes (two environments disagreeing on one route `r`)
leaves the stored stop rows and status of every other route identical. -/
theorem driver_failure_isolation
    (env env' : List Char → Except (List Char) (List Char))
    (st : DbState) (rids : List (List Char)) (r : List Char)
    (hagree : ∀ q, q ≠ r → env q = env' q) :
    ((driverLoop env st rids).2 =
      rids.map fun rid => (rid, attemptOutcome env rid)) ∧
    (∀ rid e, ((env rid).bind fun content =>
        parseRouteInfoRealtime rid "go".toList content) = .error e →
      attemptOutcome env rid = .failed) ∧
    (∀ r', r' ≠ r →
      stopsOfRoute (driverLoop env st rids).1.stops r' =
        stopsOfRoute (driverLoop env' st rids).1.stops r' ∧
      statusOf (driverLoop env st rids).1.routes r' =
        statusOf (driverLoop env' st rids).1.routes r') := by
  refine ⟨driverLoop_trace env rids st, ?_, ?_⟩
  · intro rid e h
    unfold attemptOutcome
    rw [h]
  · intro r' hne
    exact driverLoop_proj env env' r hagree r' hne rids st st rfl rfl

/-- Witness for C4: two environments that differ only on route `001`
(success with a good stop page vs network failure); route `002`'s stored
rows and status agree, and the trace still covers both routes. -/
theorem driver_failure_isolation_witness :
    ((driverLoop (fun q => if q = "001".toList then .ok goodBlock
        else .error "net down".toList) ⟨demoTbl, []⟩
        ["001".toList, "002".toList]).2 =
      ["001".toList, "002".toList].map fun rid =>
        (rid, attemptOutcome (fun q => if q = "001".toList then .ok goodBlock
          else .error "net down".toList) rid)) ∧
    (stopsOfRoute (driverLoop (fun q => if q = "001".toList then .ok goodBlock
        else .error "net down".toList) ⟨demoTbl, []⟩
        ["001".toList, "002".toList]).1.stops "002".toList =
      stopsOfRoute (driverLoop offlineEnv ⟨demoTbl, []⟩
        ["001".toList, "002".toList]).1.stops "002".toList ∧
      statusOf (driverLoop (fun q => if q = "001".toList then .ok goodBlock
        else .error "net down".toList) ⟨demoTbl, []⟩
        ["001".toList, "002".toList]).1.routes "002".toList =
      statusOf (driverLoop offlineEnv ⟨demoTbl, []⟩
        ["001".toList, "002".toList]).1.routes "002".toList) :=
  have h := driver_failure_isolation
    (fun q => if q = "001".toList then .ok goodBlock
      else .error "net down".toList) offlineEnv ⟨demoTbl, []⟩
    ["001".toList, "002".toList] "001".toList
    (fun q hq => by simp only [if_neg hq, offlineEnv])
  ⟨h.1, h.2.2 "002".toList (by decide)⟩

lemma pyIndex_lt_length {x : List Char} {l : List (List Char)} (h : x ∈ l) :
    pyIndex x l < l.length := by
  induction l with
  | nil => cases h
  | cons y ys ih =>
    unfold pyIndex
    by_cases hy : y = x
    · simp [hy]
    · have hx : x ∈ ys := by
        rcases List.mem_cons.mp h with hc | hc
        · exact absurd hc.symm hy
        · exact hc
      simp only [if_neg hy, List.length_cons]
      exact Nat.succ_lt_succ (ih hx)

lemma pyIndex_getElem? {x : List Char} {l : List (List Char)} (h : x ∈ l) :
    l[pyIndex x l]? = some x := by
  induction l with
  | nil => cases h
  | cons y ys ih =>
    unfold pyIndex
    by_cases hy : y = x
    · simp [hy]
    · have hx : x ∈ ys := by
        rcases List.mem_cons.mp h with hc | hc
        · exact absurd hc.symm hy
        · exact hc
      simp only [if_neg hy]
      rw [List.getElem?_cons_succ]
      exact ih hx

/-- C10: every result of `BusRouteFinder.find_routes` is a
`(route, direction)` group whose stop list (ordered by stop number)
contains both names with the first occurrence of the origin strictly
before the first occurrence of the destination; the result's stop slice
starts at the origin and ends at the destination; and when origin and
destination coincide there are no results. -/
theorem find_routes_spec (df : List CsvRow) (origin destination : List Char) :
    (origin = destination → findRoutes df origin destination = []) ∧
    (∀ res ∈ findRoutes df origin destination,
      origin ∈ groupStops df (res.route_name, res.direction_text) ∧
      destination ∈ groupStops df (res.route_name, res.direction_text) ∧
      pyIndex origin (groupStops df (res.route_name, res.direction_text)) <
        pyIndex destination
          (groupStops df (res.route_name, res.direction_text)) ∧
      res.stops.head? = some origin ∧
      res.stops.getLast? = some destination) := by
  constructor
  · intro h
    subst h
    apply List.filterMap_eq_nil_iff.mpr
    intro k _
    dsimp only [findRoutes]
    by_cases hmem : origin ∈ groupStops df k ∧ origin ∈ groupStops df k
    · rw [if_pos hmem, if_neg (lt_irrefl _)]
    · rw [if_neg hmem]
  · intro res hres
    obtain ⟨k, hk, hfk⟩ := List.mem_filterMap.mp hres
    dsimp only at hfk
    by_cases h1 : origin ∈ groupStops df k ∧ destination ∈ groupStops df k
    swap
    · rw [if_neg h1] at hfk; cases hfk
    rw [if_pos h1] at hfk
    by_cases h2 : pyIndex origin (groupStops df k) <
        pyIndex destination (groupStops df k)
    swap
    · rw [if_neg h2] at hfk; cases hfk
    rw [if_pos h2] at hfk
    cases hfk
    have hkey : (k.1, k.2) = k := rfl
    dsimp only
    rw [hkey]
    set stops := groupStops df k with hstops
    set i := pyIndex origin stops with hi
    set j := pyIndex destination stops with hj
    have hil : i < stops.length := pyIndex_lt_length h1.1
    have hjl : j < stops.length := pyIndex_lt_length h1.2
    have hig : stops[i]? = some origin := pyIndex_getElem? h1.1
    have hjg : stops[j]? = some destination := pyIndex_getElem? h1.2
    refine ⟨h1.1, h1.2, h2, ?_, ?_⟩
    · rw [List.head?_eq_getElem?, List.getElem?_take, if_pos (by omega),
        List.getElem?_drop]
      rw [Nat.add_zero]
      exact hig
    · have hlen : ((stops.drop i).take (j - i + 1)).length = j - i + 1 := by
        rw [List.length_take, List.length_drop]
        omega
      rw [List.getLast?_eq_getElem?, hlen]
      have : j - i + 1 - 1 = j - i := by omega
      rw [this, List.getElem?_take, if_pos (by omega), List.getElem?_drop]
      have : i + (j - i) = j := by omega
      rw [this]
      exact hjg

/-- Witness for C10 at a concrete dataset: one route, one direction,
three ordered stops; the single result runs from origin to destination,
and an equal origin/destination query yields nothing. -/
theorem find_routes_spec_witness :
    (findRoutes
      [⟨"R1".toList, "去程".toList, 1, "A站".toList⟩,
       ⟨"R1".toList, "去程".toList, 2, "B站".toList⟩,
       ⟨"R1".toList, "去程".toList, 3, "C站".toList⟩]
      "A站".toList "A站".toList = []) ∧
    (⟨"R1".toList, "去程".toList,
        ["A站".toList, "B站".toList, "C站".toList]⟩ : RouteResult) ∈
      findRoutes
        [⟨"R1".toList, "去程".toList, 1, "A站".toList⟩,
         ⟨"R1".toList, "去程".toList, 2, "B站".toList⟩,
         ⟨"R1".toList, "去程".toList, 3, "C站".toList⟩]
        "A站".toList "C站".toList ∧
    (⟨"R1".toList, "去程".toList,
        ["A站".toList, "B站".toList, "C站".toList]⟩ : RouteResult).stops.head? =
      some "A站".toList ∧
    (⟨"R1".toList, "去程".toList,
        ["A站".toList, "B站".toList, "C站".toList]⟩ : RouteResult).stops.getLast? =
      some "C站".toList :=
  have hmem : (⟨"R1".toList, "去程".toList,
      ["A站".toList, "B站".toList, "C站".toList]⟩ : RouteResult) ∈
      findRoutes
        [⟨"R1".toList, "去程".toList, 1, "A站".toList⟩,
         ⟨"R1".toList, "去程".toList, 2, "B站".toList⟩,
         ⟨"R1".toList, "去程".toList, 3, "C站".toList⟩]
        "A站".toList "C站".toList := by decide
  have h := (find_routes_spec
      [⟨"R1".toList, "去程".toList, 1, "A站".toList⟩,
       ⟨"R1".toList, "去程".toList, 2, "B站".toList⟩,
       ⟨"R1".toList, "去程".toList, 3, "C站".toList⟩]
      "A站".toList "C站".toList).2 _ hmem
  ⟨(find_routes_spec
      [⟨"R1".toList, "去程".toList, 1, "A站".toList⟩,
       ⟨"R1".toList, "去程".toList, 2, "B站".toList⟩,
       ⟨"R1".toList, "去程".toList, 3, "C站".toList⟩]
      "A站".toList "A站".toList).1 rfl,
   hmem, h.2.2.2.1, h.2.2.2.2⟩

lemma matchItemsF_congr :
    ∀ (n : Nat) (f1 f2 : Nat) (pats : List RItem) (s : List Char),
      s.length + pats.length = n → n < f1 → n < f2 →
      matchItemsF f1 pats s = matchItemsF f2 pats s := by
  intro n
  induction n using Nat.strong_induction_on with
  | _ n ih =>
    intro f1 f2 pats s hn h1 h2
    match f1, f2 with
    | 0, _ => omega
    | _, 0 => omega
    | g1 + 1, g2 + 1 =>
      have hstep : ∀ (pats' : List RItem) (s' : List Char),
          s'.length + pats'.length + 1 = n →
          matchItemsF g1 pats' s' = matchItemsF g2 pats' s' := by
        intro pats' s' hm
        exact ih (s'.length + pats'.length) (by omega) g1 g2 pats' s' rfl
          (by omega) (by omega)
      match pats, s with
      | [], s => rfl
      | .lit [] :: rest, s =>
        simp only [matchItemsF]
        exact hstep rest s (by simp at hn ⊢; omega)
      | .lit (c :: cs) :: rest, [] => rfl
      | .lit (c :: cs) :: rest, d :: s' =>
        simp only [matchItemsF]
        by_cases hcd : c = d
        · simp only [if_pos hcd]
          exact hstep (.lit cs :: rest) s' (by simp at hn ⊢; omega)
        · simp only [if_neg hcd]
      | .lazyAny cap acc :: rest, s =>
        simp only [matchItemsF]
        rw [hstep rest s (by simp at hn ⊢; omega)]
        rcases matchItemsF g2 rest s with _ | ⟨caps, r⟩
        · match s with
          | [] => rfl
          | c :: s' =>
            exact hstep (.lazyAny cap (c :: acc) :: rest) s'
              (by simp at hn ⊢; omega)
        · rfl
      | .cls p cap true acc :: rest, [] => rfl
      | .cls p cap true acc :: rest, c :: s' =>
        simp only [matchItemsF]
        by_cases hpc : p c
        · simp only [if_pos hpc]
          exact hstep (.cls p cap false (c :: acc) :: rest) s'
            (by simp at hn ⊢; omega)
        · simp only [if_neg hpc]
      | .cls p cap false acc :: rest, [] =>
        simp only [matchItemsF]
        rw [hstep rest [] (by simp at hn ⊢; omega)]
      | .cls p cap false acc :: rest, c :: s' =>
        simp only [matchItemsF]
        by_cases hpc : p c
        · simp only [if_pos hpc]
          rw [hstep (.cls p cap false (c :: acc) :: rest) s'
            (by simp at hn ⊢; omega)]
          rcases matchItemsF g2 (.cls p cap false (c :: acc) :: rest) s'
              with _ | res
          · rw [hstep rest (c :: s') (by simp at hn ⊢; omega)]
          · rfl
        · simp only [if_neg hpc]
          rw [hstep rest (c :: s') (by simp at hn ⊢; omega)]

lemma matchItems_lit_nil (rest : List RItem) (s : List Char) :
    matchItems (.lit [] :: rest) s = matchItems rest s := by
  unfold matchItems
  simp only [matchItemsF]
  exact matchItemsF_congr (s.length + rest.length) _ _ rest s rfl
    (by simp only [List.length_cons]; omega) (by omega)

lemma matchItems_lit_cons (c : Char) (cs : List Char) (rest : List RItem)
    (d : Char) (s' : List Char) :
    matchItems (.lit (c :: cs) :: rest) (d :: s') =
      if c = d then matchItems (.lit cs :: rest) s' else none := by
  unfold matchItems
  simp only [matchItemsF]
  by_cases hcd : c = d
  · simp only [if_pos hcd]
    exact matchItemsF_congr (s'.length + (rest.length + 1)) _ _
      (.lit cs :: rest) s' (by simp) (by simp only [List.length_cons]; omega) (by simp only [List.length_cons]; omega)
  · simp only [if_neg hcd]

lemma matchItems_lit_empty (c : Char) (cs : List Char) (rest : List RItem) :
    matchItems (.lit (c :: cs) :: rest) [] = none := rfl

lemma matchItems_lazy (cap : Bool) (acc : List Char) (rest : List RItem)
    (s : List Char) :
    matchItems (.lazyAny cap acc :: rest) s =
      match matchItems rest s with
      | some pr => some (emit cap acc pr.1, pr.2)
      | none =>
        match s with
        | [] => none
        | c :: s' => matchItems (.lazyAny cap (c :: acc) :: rest) s' := by
  conv_lhs => unfold matchItems
  simp only [matchItemsF]
  rw [matchItemsF_congr (s.length + rest.length) _
    (s.length + rest.length + 1) rest s rfl (by simp only [List.length_cons]; omega) (by omega)]
  show _ = match matchItems rest s with
    | some pr => some (emit cap acc pr.1, pr.2)
    | none => _
  unfold matchItems
  rcases matchItemsF (s.length + rest.length + 1) rest s with _ | ⟨caps, r⟩
  · match s with
    | [] => rfl
    | c :: s' =>
      exact matchItemsF_congr (s'.length + (rest.length + 1))
        ((c :: s').length + (RItem.lazyAny cap acc :: rest).length)
        (s'.length + (RItem.lazyAny cap (c :: acc) :: rest).length + 1)
        (.lazyAny cap (c :: acc) :: rest) s' (by simp)
        (by simp only [List.length_cons]; omega)
        (by simp only [List.length_cons]; omega)
  · rfl

lemma matchItems_nil_pat (s : List Char) : matchItems [] s = some ([], s) := rfl

lemma matchItems_lit_append (a : List Char) (rest : List RItem) :
    ∀ s : List Char, matchItems (.lit a :: rest) (a ++ s) = matchItems rest s := by
  induction a with
  | nil => intro s; simpa using matchItems_lit_nil rest s
  | cons c a ih =>
    intro s
    rw [List.cons_append, matchItems_lit_cons, if_pos rfl]
    exact ih s

lemma matchItems_lit_head_ne (c : Char) (cs : List Char) (rest : List RItem)
    (d : Char) (s' : List Char) (h : c ≠ d) :
    matchItems (.lit (c :: cs) :: rest) (d :: s') = none := by
  rw [matchItems_lit_cons, if_neg h]

lemma matchItems_lazy_capture (hB : Char) (b' : List Char) (rest : List RItem) :
    ∀ (x acc s : List Char) (caps : List (List Char)) (r : List Char),
      (∀ c ∈ x, c ≠ hB) → matchItems rest s = some (caps, r) →
      matchItems (.lazyAny true acc :: .lit (hB :: b') :: rest)
        ((x ++ (hB :: b')) ++ s) = some ((acc.reverse ++ x) :: caps, r) := by
  intro x
  induction x with
  | nil =>
    intro acc s caps r _ hm
    rw [List.nil_append, matchItems_lazy]
    have hlit : matchItems (.lit (hB :: b') :: rest) ((hB :: b') ++ s) =
        some (caps, r) := by
      rw [matchItems_lit_append]
      exact hm
    rw [hlit]
    simp [emit]
  | cons c x ih =>
    intro acc s caps r hx hm
    have hch : c ≠ hB := hx c (List.mem_cons_self c x)
    rw [List.cons_append, List.cons_append, matchItems_lazy]
    have hnone : matchItems (.lit (hB :: b') :: rest)
        (c :: ((x ++ (hB :: b')) ++ s)) = none :=
      matchItems_lit_head_ne hB b' rest c _ (Ne.symm hch)
    rw [hnone]
    show matchItems (.lazyAny true (c :: acc) :: .lit (hB :: b') :: rest)
      ((x ++ (hB :: b')) ++ s) = some ((acc.reverse ++ (c :: x)) :: caps, r)
    rw [ih (c :: acc) s caps r (fun d hd => hx d (List.mem_cons_of_mem c hd)) hm]
    simp

lemma matchItems_routeAnchor (e : RouteEntry) (s : List Char)
    (hok : EntryOK e) :
    matchItems routePat (routeAnchor e ++ s) = some ([e.rid, e.name], s) := by
  obtain ⟨_, hrid, hname⟩ := hok
  have h2 : matchItems
      [.lazyAny true [], .lit "</a></li>".toList]
      ((e.name ++ "</a></li>".toList) ++ s) = some ([e.name], s) := by
    have := matchItems_lazy_capture '<' "/a></li>".toList [] e.name [] s [] s
      (fun c hc => hname c hc) (matchItems_nil_pat s)
    simpa using this
  have h1 : matchItems
      [.lazyAny true [], .lit "')\">".toList,
       .lazyAny true [], .lit "</a></li>".toList]
      ((e.rid ++ "')\">".toList) ++ (e.name ++ ("</a></li>".toList ++ s))) =
      some ([e.rid, e.name], s) := by
    have := matchItems_lazy_capture '\'' ")\">".toList
      [.lazyAny true [], .lit "</a></li>".toList]
      e.rid [] (e.name ++ ("</a></li>".toList ++ s)) [e.name] s
      (fun c hc h => hrid (h ▸ hc)) (by simpa [List.append_assoc] using h2)
    simpa using this
  unfold routePat routeAnchor
  have hassoc :
      "<li><a href=\"javascript:go('".toList ++ e.rid ++ "')\">".toList ++
        e.name ++ "</a></li>".toList ++ s =
      "<li><a href=\"javascript:go('".toList ++
        ((e.rid ++ "')\">".toList) ++ (e.name ++ ("</a></li>".toList ++ s))) := by
    simp [List.append_assoc]
  rw [hassoc, matchItems_lit_append]
  exact h1

lemma findAuxF_congr :
    ∀ (n f1 f2 : Nat) (pat : List RItem) (s : List Char),
      s.length = n → n < f1 → n < f2 →
      findAuxF f1 pat s = findAuxF f2 pat s := by
  intro n
  induction n using Nat.strong_induction_on with
  | _ n ih =>
    intro f1 f2 pat s hn h1 h2
    match f1, f2 with
    | 0, _ => omega
    | _, 0 => omega
    | g1 + 1, g2 + 1 =>
      simp only [findAuxF]
      rcases hm : matchItems pat s with _ | ⟨caps, r⟩
      · match s with
        | [] => rfl
        | c :: s' =>
          exact ih s'.length (by simp at hn; omega) g1 g2 pat s' rfl
            (by simp at hn; omega) (by simp at hn; omega)
      · by_cases hlt : r.length < s.length
        · simp only [if_pos hlt]
          rw [ih r.length (by omega) g1 g2 pat r rfl (by omega) (by omega)]
        · simp only [if_neg hlt]
          match s with
          | [] => rfl
          | c :: s' =>
            show caps :: findAuxF g1 pat s' = caps :: findAuxF g2 pat s'
            rw [ih s'.length (by simp at hn; omega) g1 g2 pat s' rfl
              (by simp at hn; omega) (by simp at hn; omega)]

lemma findAux_match_step (pat : List RItem) (s : List Char)
    (caps : List (List Char)) (r : List Char)
    (h : matchItems pat s = some (caps, r)) (hlt : r.length < s.length) :
    findAux pat s = caps :: findAux pat r := by
  unfold findAux
  simp only [findAuxF]
  rw [h]
  simp only [if_pos hlt]
  rw [findAuxF_congr r.length s.length (r.length + 1) pat r rfl
    (by omega) (by omega)]
  rfl

lemma findAux_skip_one (pat : List RItem) (c : Char) (s' : List Char)
    (h : matchItems pat (c :: s') = none) :
    findAux pat (c :: s') = findAux pat s' := by
  unfold findAux
  simp only [findAuxF]
  rw [h]

lemma matchItems_routePat_head_ne (c : Char) (t : List Char) (h : c ≠ '<') :
    matchItems routePat (c :: t) = none := by
  unfold routePat
  exact matchItems_lit_head_ne '<' _ _ c t (Ne.symm h)

lemma findAux_routePat_skip (j : List Char) (hj : ∀ c ∈ j, c ≠ '<') :
    ∀ s, findAux routePat (j ++ s) = findAux routePat s := by
  induction j with
  | nil => intro s; rw [List.nil_append]
  | cons c j ih =>
    intro s
    rw [List.cons_append, findAux_skip_one routePat c (j ++ s)
      (matchItems_routePat_head_ne c (j ++ s)
        (hj c (List.mem_cons_self c j))),
      ih (fun d hd => hj d (List.mem_cons_of_mem c hd)) s]

lemma findAux_routePat_build (es : List RouteEntry) (trailing : List Char)
    (hes : ∀ e ∈ es, EntryOK e) (htr : ∀ c ∈ trailing, c ≠ '<') :
    findAux routePat (buildRouteHtml es trailing) =
      es.map fun e => [e.rid, e.name] := by
  induction es with
  | nil =>
    show findAux routePat ([].flatten ++ trailing) = []
    rw [List.flatten_nil, List.nil_append]
    have := findAux_routePat_skip trailing htr []
    rw [List.append_nil] at this
    rw [this]
    rfl
  | cons e es ih =>
    have hok := hes e (List.mem_cons_self e es)
    show findAux routePat
      (((e.pre ++ routeAnchor e) :: (es.map fun x => x.pre ++ routeAnchor x)).flatten
        ++ trailing) = _
    rw [List.flatten_cons, List.append_assoc, List.append_assoc]
    rw [findAux_routePat_skip e.pre hok.1]
    rw [← List.append_assoc (routeAnchor e)]
    have hmatch := matchItems_routeAnchor e
      ((es.map fun x => x.pre ++ routeAnchor x).flatten ++ trailing) hok
    rw [← List.append_assoc] at hmatch
    have hlen : ((es.map fun x => x.pre ++ routeAnchor x).flatten ++
        trailing).length <
        (routeAnchor e ++
          ((es.map fun x => x.pre ++ routeAnchor x).flatten ++ trailing)).length := by
      rw [List.length_append (routeAnchor e)]
      have : 0 < (routeAnchor e).length := by
        unfold routeAnchor
        simp
      omega
    rw [← List.append_assoc] at hlen
    rw [findAux_match_step routePat _ [e.rid, e.name] _ hmatch hlen]
    rw [show ((es.map fun x => x.pre ++ routeAnchor x).flatten ++ trailing) =
      buildRouteHtml es trailing from rfl] at hlen ⊢
    rw [ih (fun x hx => hes x (List.mem_cons_of_mem e hx))]
    rfl

/-- C6: a route-list page holding exactly `N` anchors in the
`go('<id>')` micro-syntax (each possibly preceded by filler that opens
no tag, with trailing filler after the last) parses to exactly `N`
`(route token, display name)` pairs, in document order, each display
name stripped of leading and trailing whitespace. -/
theorem parse_route_list_document_order (es : List RouteEntry)
    (trailing : List Char) (hes : ∀ e ∈ es, EntryOK e)
    (htr : ∀ c ∈ trailing, c ≠ '<') (hne : es ≠ []) :
    parseRouteList (buildRouteHtml es trailing) =
      .ok (es.map fun e => (e.rid, pyStrip e.name)) ∧
    (es.map fun e => (e.rid, pyStrip e.name)).length = es.length := by
  have hfind := findAux_routePat_build es trailing hes htr
  constructor
  · unfold parseRouteList
    rw [hfind]
    have hmap : (es.map fun e => [e.rid, e.name]) ≠ [] := by
      simpa using hne
    rw [if_neg hmap]
    rw [List.map_map]
    rfl
  · rw [List.length_map]

/-- Witness for C6: two anchors with padded names and filler text. -/
theorem parse_route_list_document_order_witness :
    parseRouteList (buildRouteHtml
      [⟨[], "0161000900".toList, " 承德幹線 ".toList⟩,
       ⟨"\n  ".toList, "0161000901".toList, "\t另一線".toList⟩]
      "\n".toList) =
      .ok [("0161000900".toList, pyStrip " 承德幹線 ".toList),
           ("0161000901".toList, pyStrip "\t另一線".toList)] ∧
    ([("0161000900".toList, pyStrip " 承德幹線 ".toList),
      ("0161000901".toList, pyStrip "\t另一線".toList)] :
        List (List Char × List Char)).length = 2 :=
  parse_route_list_document_order
    [⟨[], "0161000900".toList, " 承德幹線 ".toList⟩,
     ⟨"\n  ".toList, "0161000901".toList, "\t另一線".toList⟩]
    "\n".toList
    (by
      intro e he
      simp only [List.mem_cons, List.not_mem_nil, or_false] at he
      rcases he with rfl | rfl
      · exact ⟨by decide, by decide, by decide⟩
      · exact ⟨by decide, by decide, by decide⟩)
    (by decide) (by simp)

lemma capsOK_lazy_emit {cap : Bool} {acc : List Char} {rest : List RItem}
    {caps' : List (List Char)} (h : CapsOK rest caps') :
    CapsOK (.lazyAny cap acc :: rest) (emit cap acc caps') := by
  cases cap
  · exact h
  · exact ⟨acc.reverse, caps', rfl, h⟩

lemma capsOK_cls_emit {p : Char → Bool} {cap needOne : Bool} {acc : List Char}
    {rest : List RItem} {caps' : List (List Char)} (h : CapsOK rest caps') :
    CapsOK (.cls p cap needOne acc :: rest) (emit cap acc caps') := by
  cases cap
  · exact h
  · exact ⟨acc.reverse, caps', rfl,
      fun d hd => Or.inr (List.mem_reverse.mp hd), h⟩

lemma capsOK_cls_acc {p : Char → Bool} {cap n1 n2 : Bool} {acc : List Char}
    {c : Char} {rest : List RItem} {caps : List (List Char)}
    (hpc : p c = true) :
    CapsOK (.cls p cap n1 (c :: acc) :: rest) caps →
    CapsOK (.cls p cap n2 acc :: rest) caps := by
  cases cap
  · exact id
  · rintro ⟨x, caps', rfl, hall, hrest⟩
    refine ⟨x, caps', rfl, ?_, hrest⟩
    intro d hd
    rcases hall d hd with h | h
    · exact Or.inl h
    · rcases List.mem_cons.mp h with h | h
      · exact Or.inl (h ▸ hpc)
      · exact Or.inr h

lemma matchItemsF_capsOK :
    ∀ (fuel : Nat) (pats : List RItem) (s : List Char)
      (caps : List (List Char)) (r : List Char),
      matchItemsF fuel pats s = some (caps, r) → CapsOK pats caps := by
  intro fuel
  induction fuel with
  | zero => intro pats s caps r h; cases h
  | succ f ih =>
    intro pats s caps r h
    match pats, s with
    | [], s =>
      simp only [matchItemsF, Option.some.injEq, Prod.mk.injEq] at h
      rw [← h.1]
      rfl
    | .lit [] :: rest, s =>
      simp only [matchItemsF] at h
      exact ih rest s caps r h
    | .lit (c :: cs) :: rest, [] => cases h
    | .lit (c :: cs) :: rest, d :: s' =>
      simp only [matchItemsF] at h
      by_cases hcd : c = d
      · rw [if_pos hcd] at h
        exact ih (.lit cs :: rest) s' caps r h
      · rw [if_neg hcd] at h
        cases h
    | .lazyAny cap acc :: rest, s =>
      simp only [matchItemsF] at h
      split at h
      · rename_i caps0 r0 heq
        injection h with h
        injection h with h1 h2
        rw [← h1]
        exact capsOK_lazy_emit (ih rest s _ _ heq)
      · rename_i heq
        match s, h with
        | c :: s', h => exact ih (.lazyAny cap (c :: acc) :: rest) s' caps r h
    | .cls p cap true acc :: rest, [] => cases h
    | .cls p cap true acc :: rest, c :: s' =>
      simp only [matchItemsF] at h
      by_cases hpc : p c
      · rw [if_pos hpc] at h
        exact capsOK_cls_acc hpc
          (ih (.cls p cap false (c :: acc) :: rest) s' caps r h)
      · rw [if_neg hpc] at h
        cases h
    | .cls p cap false acc :: rest, [] =>
      simp only [matchItemsF] at h
      obtain ⟨pr, hpr, heq⟩ := Option.map_eq_some'.mp h
      have : caps = emit cap acc pr.1 := by
        injection heq with h1 h2
        exact h1.symm
      rw [this]
      exact capsOK_cls_emit (ih rest [] pr.1 pr.2 (by rw [hpr]))
    | .cls p cap false acc :: rest, c :: s' =>
      simp only [matchItemsF] at h
      by_cases hpc : p c
      · rw [if_pos hpc] at h
        split at h
        · rename_i res heq
          rw [h] at heq
          exact capsOK_cls_acc hpc
            (ih (.cls p cap false (c :: acc) :: rest) s' caps r heq)
        · obtain ⟨pr, hpr, heq⟩ := Option.map_eq_some'.mp h
          have : caps = emit cap acc pr.1 := by
            injection heq with h1 h2
            exact h1.symm
          rw [this]
          exact capsOK_cls_emit (ih rest (c :: s') pr.1 pr.2 (by rw [hpr]))
      · rw [if_neg hpc] at h
        obtain ⟨pr, hpr, heq⟩ := Option.map_eq_some'.mp h
        have : caps = emit cap acc pr.1 := by
          injection heq with h1 h2
          exact h1.symm
        rw [this]
        exact capsOK_cls_emit (ih rest (c :: s') pr.1 pr.2 (by rw [hpr]))

lemma findAuxF_provenance :
    ∀ (fuel : Nat) (pat : List RItem) (s : List Char)
      (caps : List (List Char)), caps ∈ findAuxF fuel pat s →
      ∃ s1 r, matchItems pat s1 = some (caps, r) := by
  intro fuel
  induction fuel with
  | zero => intro pat s caps h; cases h
  | succ f ih =>
    intro pat s caps h
    simp only [findAuxF] at h
    split at h
    · rename_i caps0 r0 heq
      split at h
      · rcases List.mem_cons.mp h with rfl | h
        · exact ⟨s, r0, heq⟩
        · exact ih pat r0 caps h
      · rcases List.mem_cons.mp h with rfl | h
        · exact ⟨s, r0, heq⟩
        · match s, h with
          | _ :: s', h => exact ih pat s' caps h
    · match s, h with
      | _ :: s', h => exact ih pat s' caps h

lemma findAux_provenance (pat : List RItem) (s : List Char)
    (caps : List (List Char)) (h : caps ∈ findAux pat s) :
    ∃ s1 r, matchItems pat s1 = some (caps, r) :=
  findAuxF_provenance (s.length + 1) pat s caps h

lemma capsOK_stopPat (caps : List (List Char)) (h : CapsOK stopPat caps) :
    ∃ a n nm sid la lo, caps = [a, n, nm, sid, la, lo] ∧
      (∀ c ∈ n, Char.isDigit c = true) ∧
      (∀ c ∈ sid, Char.isDigit c = true) ∧
      (∀ c ∈ la, isDigitDot c = true) ∧
      (∀ c ∈ lo, isDigitDot c = true) := by
  unfold stopPat at h
  simp only [CapsOK] at h
  obtain ⟨a, caps1, rfl, h⟩ := h
  obtain ⟨n, caps2, rfl, hn, h⟩ := h
  obtain ⟨nm, caps3, rfl, h⟩ := h
  obtain ⟨sid, caps4, rfl, hsid, h⟩ := h
  obtain ⟨la, caps5, rfl, hla, h⟩ := h
  obtain ⟨lo, caps6, rfl, hlo, h⟩ := h
  rw [h]
  refine ⟨a, n, nm, sid, la, lo, rfl, ?_, ?_, ?_, ?_⟩
  · intro c hc
    rcases hn c hc with h' | h'
    · exact h'
    · cases h'
  · intro c hc
    rcases hsid c hc with h' | h'
    · exact h'
    · cases h'
  · intro c hc
    rcases hla c hc with h' | h'
    · exact h'
    · cases h'
  · intro c hc
    rcases hlo c hc with h' | h'
    · exact h'
    · cases h'

lemma pyFloatCore_nonneg (v : List Char) (q : ℚ)
    (h : pyFloatCore v = some q) : 0 ≤ q := by
  unfold pyFloatCore at h
  split at h
  · injection h with h
    rw [← h]
    positivity
  · cases h

lemma pyFloat_nonneg (v : List Char) (hv : ∀ c ∈ v, isDigitDot c = true)
    (q : ℚ) (h : pyFloat v = some q) : 0 ≤ q := by
  unfold pyFloat at h
  split at h
  · exact absurd (hv '-' (List.mem_cons_self _ _)) (by decide)
  · exact absurd (hv '+' (List.mem_cons_self _ _)) (by decide)
  · exact pyFloatCore_nonneg v q h

lemma cellToFloat_s_nonneg (v : List Char) (hv : ∀ c ∈ v, isDigitDot c = true)
    (c : Cell) (h : cellToFloat (.s v) = some c) (q : ℚ) (hc : c = .f q) :
    0 ≤ q := by
  unfold cellToFloat at h
  obtain ⟨q', hq', hcq⟩ := Option.map_eq_some'.mp h
  rw [hc] at hcq
  injection hcq with hqq
  rw [← hqq]
  exact pyFloat_nonneg v hv q' hq'

/-- C9: the stop-list pattern's latitude and longitude groups capture
only digits and dots (no sign can be captured), and therefore every
latitude/longitude float the realtime parser produces is non-negative —
a stop at a negative coordinate can never be extracted. -/
theorem stop_coordinates_nonneg (rid dir content : List Char) :
    (∀ caps ∈ findAux stopPat content,
      (∀ c ∈ caps.getD 4 [], isDigitDot c = true) ∧
      (∀ c ∈ caps.getD 5 [], isDigitDot c = true)) ∧
    (∀ rows, parseRouteInfoRealtime rid dir content = .ok rows →
      ∀ row ∈ rows,
        (∀ q, row.latitude = .f q → 0 ≤ q) ∧
        (∀ q, row.longitude = .f q → 0 ≤ q)) := by
  have hshape : ∀ caps ∈ findAux stopPat content,
      ∃ a n nm sid la lo, caps = [a, n, nm, sid, la, lo] ∧
        (∀ c ∈ la, isDigitDot c = true) ∧
        (∀ c ∈ lo, isDigitDot c = true) := by
    intro caps hcaps
    obtain ⟨s1, r, hm⟩ := findAux_provenance _ _ _ hcaps
    have hcap : CapsOK stopPat caps :=
      matchItemsF_capsOK (s1.length + stopPat.length + 1) stopPat s1 caps r hm
    obtain ⟨a, n, nm, sid, la, lo, heq, _, _, hla, hlo⟩ :=
      capsOK_stopPat caps hcap
    exact ⟨a, n, nm, sid, la, lo, heq, hla, hlo⟩
  constructor
  · intro caps hcaps
    obtain ⟨a, n, nm, sid, la, lo, rfl, hla, hlo⟩ := hshape caps hcaps
    exact ⟨hla, hlo⟩
  · intro rows h
    unfold parseRouteInfoRealtime at h
    by_cases hms : findAux stopPat content = []
    · simp [hms] at h
    · simp only [hms, if_false] at h
      split at h
      · cases h
      · rename_i rows1 h1
        split at h
        · cases h
        · rename_i rows2 h2
          split at h
          · cases h
          · rename_i rows3 h3
            cases h
            intro row hrow
            obtain ⟨x2, hx2, hfx2⟩ := mapMOpt_mem h3 row hrow
            obtain ⟨cnum, _, hxc⟩ := Option.map_eq_some'.mp hfx2
            obtain ⟨x3, hx3, hfx3⟩ := mapMOpt_mem h2 x2 hx2
            obtain ⟨clon, hclon, hxc3⟩ := Option.map_eq_some'.mp hfx3
            obtain ⟨x4, hx4, hfx4⟩ := mapMOpt_mem h1 x3 hx3
            obtain ⟨clat, hclat, hxc4⟩ := Option.map_eq_some'.mp hfx4
            obtain ⟨caps, hcaps, hraw⟩ := List.mem_map.mp hx4
            obtain ⟨a, n, nm, sid, la, lo, hcshape, hla, hlo⟩ :=
              hshape caps hcaps
            have hx4lat : x4.latitude = .s la := by
              rw [← hraw, hcshape]
              rfl
            have hx4lon : x4.longitude = .s lo := by
              rw [← hraw, hcshape]
              rfl
            have hrowlat : row.latitude = clat := by
              rw [← hxc, ← hxc3, ← hxc4]
            have hrowlon : row.longitude = clon := by
              rw [← hxc, ← hxc3]
            constructor
            · intro q hq
              rw [hrowlat] at hq
              rw [hx4lat] at hclat
              exact cellToFloat_s_nonneg la hla clat hclat q hq
            · intro q hq
              rw [hrowlon] at hq
              have hx3lon : x3.longitude = .s lo := by
                rw [← hxc4, hx4lon]
              rw [hx3lon] at hclon
              exact cellToFloat_s_nonneg lo hlo clon hclon q hq

/-- Witness for C9 on a concrete stop page: the captured coordinate
texts are digit/dot-only and the parsed float cells are non-negative. -/
theorem stop_coordinates_nonneg_witness :
    ("25.0".toList.all isDigitDot = true) ∧
    ("121.5".toList.all isDigitDot = true) ∧
    0 ≤ ((latCells (parseRouteInfoRealtime "r1".toList "go".toList
      goodBlock)).headD (.s [])).fval ∧
    0 ≤ ((lonCells (parseRouteInfoRealtime "r1".toList "go".toList
      goodBlock)).headD (.s [])).fval := by
  have h := stop_coordinates_nonneg "r1".toList "go".toList goodBlock
  have hcaps : ["A".toList, "1".toList, "N".toList, "11".toList,
      "25.0".toList, "121.5".toList] ∈ findAux stopPat goodBlock := by decide
  have h1 := h.1 _ hcaps
  have hlatF : (latCells (parseRouteInfoRealtime "r1".toList "go".toList
      goodBlock)).map Cell.isF = [true] := by decide
  have hlonF : (lonCells (parseRouteInfoRealtime "r1".toList "go".toList
      goodBlock)).map Cell.isF = [true] := by decide
  refine ⟨List.all_eq_true.mpr h1.1, List.all_eq_true.mpr h1.2, ?_, ?_⟩
  · obtain ⟨rows, hrows⟩ : ∃ rows,
        parseRouteInfoRealtime "r1".toList "go".toList goodBlock =
          .ok rows := by
      rcases hp : parseRouteInfoRealtime "r1".toList "go".toList goodBlock
          with e | rows
      · have hok : (parseRouteInfoRealtime "r1".toList "go".toList
            goodBlock).isOk = true := by decide
        rw [hp] at hok
        cases hok
      · exact ⟨rows, rfl⟩
    have hcells : latCells (parseRouteInfoRealtime "r1".toList "go".toList
        goodBlock) = rows.map (·.latitude) := by
      rw [latCells, hrows]
      rfl
    rw [hcells] at hlatF ⊢
    rw [List.map_eq_cons_iff] at hlatF
    obtain ⟨c, cs, hmapc, hcF, hcs⟩ := hlatF
    rw [List.map_eq_cons_iff] at hmapc
    obtain ⟨row0, rest, hrows0, hlat0, hmaprest⟩ := hmapc
    have h2 := (h.2 rows hrows row0 (hrows0 ▸ List.mem_cons_self row0 rest)).1
    rcases hc : row0.latitude with v | z | q
    · rw [hc] at hlat0; rw [← hlat0] at hcF; cases hcF
    · rw [hc] at hlat0; rw [← hlat0] at hcF; cases hcF
    · have hq := h2 q hc
      rw [hrows0]
      simp only [List.map_cons, List.headD]
      rw [hc]
      exact hq
  · obtain ⟨rows, hrows⟩ : ∃ rows,
        parseRouteInfoRealtime "r1".toList "go".toList goodBlock =
          .ok rows := by
      rcases hp : parseRouteInfoRealtime "r1".toList "go".toList goodBlock
          with e | rows
      · have hok : (parseRouteInfoRealtime "r1".toList "go".toList
            goodBlock).isOk = true := by decide
        rw [hp] at hok
        cases hok
      · exact ⟨rows, rfl⟩
    have hcells : lonCells (parseRouteInfoRealtime "r1".toList "go".toList
        goodBlock) = rows.map (·.longitude) := by
      rw [lonCells, hrows]
      rfl
    rw [hcells] at hlonF ⊢
    rw [List.map_eq_cons_iff] at hlonF
    obtain ⟨c, cs, hmapc, hcF, hcs⟩ := hlonF
    rw [List.map_eq_cons_iff] at hmapc
    obtain ⟨row0, rest, hrows0, hlon0, hmaprest⟩ := hmapc
    have h2 := (h.2 rows hrows row0 (hrows0 ▸ List.mem_cons_self row0 rest)).2
    rcases hc : row0.longitude with v | z | q
    · rw [hc] at hlon0; rw [← hlon0] at hcF; cases hcF
    · rw [hc] at hlon0; rw [← hlon0] at hcF; cases hcF
    · have hq := h2 q hc
      rw [hrows0]
      simp only [List.map_cons, List.headD]
      rw [hc]
      exact hq

/-- Counterexample to C3 as stated, at `badBlock ++ goodBlock` (a stop
entry with latitude text `abc` followed by a well-formed entry): the
parse does not fail — the malformed entry is silently merged with the
following block into a single record — and the record's `stop_id` is
still a string cell, not a numeric one. -/
theorem numeric_conversion_counterexample :
    (parseRouteInfoRealtime "r1".toList "go".toList
      (badBlock ++ goodBlock)).map (fun rows => rows.map fun r =>
        (r.stop_id, r.latitude.isF, r.longitude.isF, r.stop_number)) =
    .ok [(.s "22".toList, true, true, .i 2)] := by
  decide

lemma cellToFloat_isF (c c' : Cell) (h : cellToFloat c = some c') :
    c'.isF = true := by
  rcases c with v | z | q
  · obtain ⟨q', _, hq⟩ := Option.map_eq_some'.mp h
    rw [← hq]
    rfl
  · injection h with h
    rw [← h]
    rfl
  · injection h with h
    rw [← h]
    rfl

lemma cellToInt_isI (c c' : Cell) (h : cellToInt c = some c') :
    c'.isI = true := by
  rcases c with v | z | q
  · obtain ⟨z', _, hz⟩ := Option.map_eq_some'.mp h
    rw [← hz]
    rfl
  · injection h with h
    rw [← h]
    rfl
  · injection h with h
    rw [← h]
    rfl

lemma rawStopRow_raw_cells (rid dir : List Char) (caps : List (List Char)) :
    (rawStopRow rid dir caps).latitude.isS = true ∧
    (rawStopRow rid dir caps).longitude.isS = true ∧
    (rawStopRow rid dir caps).stop_number.isS = true ∧
    (rawStopRow rid dir caps).stop_id.isS = true := by
  unfold rawStopRow
  split <;> exact ⟨rfl, rfl, rfl, rfl⟩

lemma rawStopRow_latitude_text (rid dir : List Char)
    (caps : List (List Char)) :
    (rawStopRow rid dir caps).latitude = .s (caps.getD 4 []) ∨
    (rawStopRow rid dir caps).latitude = .s [] := by
  unfold rawStopRow
  split
  · left
    rfl
  · right
    rfl

lemma mapMOpt_eq_none {f : α → Option β} :
    ∀ {l : List α} {x : α}, x ∈ l → f x = none → mapMOpt f l = none := by
  intro l
  induction l with
  | nil => intro x h; cases h
  | cons y ys ih =>
    intro x hx hfx
    unfold mapMOpt
    rcases List.mem_cons.mp hx with rfl | hx
    · rw [hfx]
    · rcases hfy : f y with _ | v
      · rfl
      · rw [ih hx hfx]

/-- C3 as amended: in `realtime_scraper.py`'s extractor every returned
record has float latitude/longitude and int stop number, while
`stop_id` remains a string; a captured coordinate numeral that is not a
valid float (e.g. two dots) fails the whole parse; and `00003.py`'s
extractor converts nothing — all four fields stay strings.  (A field
text the pattern cannot capture at all, like `abc`, does not fail the
record: the block is skipped or merged into a neighbour, per the
counterexample.) -/
theorem numeric_conversion_amended (rid dir content : List Char) :
    (∀ rows, parseRouteInfoRealtime rid dir content = .ok rows →
      ∀ row ∈ rows, row.latitude.isF = true ∧ row.longitude.isF = true ∧
        row.stop_number.isI = true ∧ row.stop_id.isS = true) ∧
    (∀ caps ∈ findAux stopPat content,
      pyFloat (latTextOfCaps caps) = none →
      parseRouteInfoRealtime rid dir content = .error convErrMsg) ∧
    (∀ rows, parseRouteInfo00003 rid dir content = .ok rows →
      ∀ row ∈ rows, row.latitude.isS = true ∧ row.longitude.isS = true ∧
        row.stop_number.isS = true ∧ row.stop_id.isS = true) := by
  refine ⟨?_, ?_, ?_⟩
  · intro rows h row hrow
    unfold parseRouteInfoRealtime at h
    by_cases hms : findAux stopPat content = []
    · simp [hms] at h
    · simp only [hms, if_false] at h
      split at h
      · cases h
      · rename_i rows1 h1
        split at h
        · cases h
        · rename_i rows2 h2
          split at h
          · cases h
          · rename_i rows3 h3
            cases h
            obtain ⟨x2, hx2, hfx2⟩ := mapMOpt_mem h3 row hrow
            obtain ⟨cnum, hcnum, hxc⟩ := Option.map_eq_some'.mp hfx2
            obtain ⟨x3, hx3, hfx3⟩ := mapMOpt_mem h2 x2 hx2
            obtain ⟨clon, hclon, hxc3⟩ := Option.map_eq_some'.mp hfx3
            obtain ⟨x4, hx4, hfx4⟩ := mapMOpt_mem h1 x3 hx3
            obtain ⟨clat, hclat, hxc4⟩ := Option.map_eq_some'.mp hfx4
            obtain ⟨caps, _, hraw⟩ := List.mem_map.mp hx4
            refine ⟨?_, ?_, ?_, ?_⟩
            · have : row.latitude = clat := by
                rw [← hxc, ← hxc3, ← hxc4]
              rw [this]
              exact cellToFloat_isF _ _ hclat
            · have : row.longitude = clon := by
                rw [← hxc, ← hxc3]
              rw [this]
              exact cellToFloat_isF _ _ hclon
            · have : row.stop_number = cnum := by
                rw [← hxc]
              rw [this]
              exact cellToInt_isI _ _ hcnum
            · have : row.stop_id = x4.stop_id := by
                rw [← hxc, ← hxc3, ← hxc4]
              rw [this, ← hraw]
              exact (rawStopRow_raw_cells rid dir caps).2.2.2
  · intro caps hcaps hnone
    unfold latTextOfCaps at hnone
    by_cases hms : findAux stopPat content = []
    · rw [hms] at hcaps
      cases hcaps
    · unfold parseRouteInfoRealtime
      rw [if_neg hms]
      dsimp only
      have hfail : cellToFloat (rawStopRow rid dir caps).latitude = none := by
        rcases rawStopRow_latitude_text rid dir caps with h | h <;> rw [h]
        · show (pyFloat (caps.getD 4 [])).map Cell.f = none
          rw [hnone]
          rfl
        · rfl
      have hmnone : mapMOpt (fun r => (cellToFloat r.latitude).map
          fun c => { r with latitude := c })
          ((findAux stopPat content).map (rawStopRow rid dir)) = none := by
        apply mapMOpt_eq_none (List.mem_map_of_mem (rawStopRow rid dir) hcaps)
        rw [hfail]
        rfl
      rw [hmnone]
  · intro rows h row hrow
    unfold parseRouteInfo00003 at h
    by_cases hms : findAux stopPat content = []
    · simp [hms] at h
    · simp only [hms, if_false] at h
      injection h with h
      rw [← h] at hrow
      obtain ⟨caps, _, hraw⟩ := List.mem_map.mp hrow
      rw [← hraw]
      exact rawStopRow_raw_cells rid dir caps

/-- Witness for the amended C3: the double-dot latitude block makes the
realtime parse fail as a whole. -/
theorem numeric_conversion_amended_witness :
    (parseRouteInfoRealtime "r1".toList "go".toList dotBlock).isOk = false := by
  have h := (numeric_conversion_amended "r1".toList "go".toList dotBlock).2.1
  have he := h ["C".toList, "3".toList, "P".toList, "33".toList,
    "25..04".toList, "121.0".toList] (by decide) (by decide)
  rw [he]
  rfl
